import Mathlib

/-!
Shallow embedding of the pycotracer report-interpretation code
(report_interpreters.py, retrieval.py, mongo_aggregator.py) together with
the Python primitives it relies on (the float builtin, datetime.strptime
with the fixed format used by parse_iso_str, str.lower, dict access).

Python dictionaries are modelled as association lists of string keys and
dynamically typed values; Python exceptions are modelled by an error type
threaded through the Except monad.  A try/except block with a given set of
caught exception classes becomes a case split on the Except result.
-/

/-- Python exception classes that can escape the code under study. -/
inductive PyErr : Type
  | keyError (key : String)
  | valueError (msg : String)
  | typeError (msg : String)
  | attributeError (msg : String)
  | nameError (msg : String)
  deriving DecidableEq, Repr

/-- Result of datetime.datetime.strptime: a naive datetime value. -/
structure PyDateTime : Type where
  year : Nat
  month : Nat
  day : Nat
  hour : Nat
  minute : Nat
  second : Nat
  deriving DecidableEq, Repr

/-- Value of the Python float type: a finite value (modelled exactly as a
rational), an infinity, or a NaN. -/
inductive PyFloat : Type
  | finite (q : ℚ)
  | infinite (negative : Bool)
  | nan
  deriving DecidableEq, Repr

/-- Dynamically typed Python values occurring in a report record. -/
inductive Value : Type
  | str (s : String)
  | num (f : PyFloat)
  | date (d : PyDateTime)
  | bool (b : Bool)
  | none
  deriving DecidableEq, Repr

/-- True exactly on Python strings. -/
def Value.isStr : Value → Bool
  | .str _ => true
  | _ => false

/-- A report record: a Python dict with string keys, modelled as an
association list (first binding of a key wins on lookup; keys are unique in
records produced by the csv reader). -/
abbrev Record := List (String × Value)

/-- Python dict membership / item read without exception: d.get(key). -/
def lookupKey : Record → String → Option Value
  | [], _ => Option.none
  | (k, v) :: rest, key => if k = key then some v else lookupKey rest key

/-- Python dict item assignment d[key] = v: overwrite in place if the key
exists, otherwise append a new binding. -/
def setKey : Record → String → Value → Record
  | [], key, v => [(key, v)]
  | (k, w) :: rest, key, v =>
      if k = key then (k, v) :: rest else (k, w) :: setKey rest key v

/-- Python del d[key]. -/
def delKey (r : Record) (key : String) : Record :=
  r.filter (fun kv => kv.1 ≠ key)

/-- Key list of a record (dict keys). -/
def recKeys (r : Record) : List String := r.map Prod.fst

/-- Python dict item read d[key]: raises KeyError when the key is absent. -/
def dictGet (r : Record) (key : String) : Except PyErr Value :=
  match lookupKey r key with
  | some v => .ok v
  | Option.none => .error (.keyError key)

/-- Whitespace characters recognized by Python str.strip and by the regex
class used for whitespace in the strptime format compiler. -/
def isPySpace (c : Char) : Bool :=
  c = ' ' || c = '\t' || c = '\n' || c = '\r' || c = '\x0b' || c = '\x0c'

/-- ASCII lower-casing of a single character, as str.lower performs on the
character data appearing in TRACER records. -/
def lowerChar (c : Char) : Char :=
  if 65 ≤ c.toNat ∧ c.toNat ≤ 90 then Char.ofNat (c.toNat + 32) else c

/-- Python str.lower. -/
def lowerStr (s : String) : String := ⟨s.data.map lowerChar⟩

/-- Numeric value of a run of ASCII digit characters. -/
def digitsToNat (ds : List Char) : Nat :=
  ds.foldl (fun a c => a * 10 + (c.toNat - 48)) 0

/-- Parses exactly four digit characters (the %Y directive, whose compiled
regex is four digit classes). -/
def parse4digits : List Char → Option (Nat × List Char)
  | c1 :: c2 :: c3 :: c4 :: rest =>
      if c1.isDigit && c2.isDigit && c3.isDigit && c4.isDigit then
        some ((((c1.toNat - 48) * 10 + (c2.toNat - 48)) * 10 +
          (c3.toNat - 48)) * 10 + (c4.toNat - 48), rest)
      else Option.none
  | _ => Option.none

/-- Parses a one- or two-digit numeric field as the compiled strptime
regexes for %m, %d, %H, %M and %S do.  Each of those regexes is an ordered
alternation of two-digit forms followed by a one-digit form; because every
directive in the format is followed by a non-digit (a literal, whitespace
or the end anchor), the regex backtracking is vacuous and the match is
deterministic: two leading digits must form a value between low and high2,
a single leading digit must be at least low. -/
def parse2or1 (low high2 : Nat) : List Char → Option (Nat × List Char)
  | c1 :: rest =>
      if c1.isDigit then
        match rest with
        | c2 :: rest2 =>
            if c2.isDigit then
              let v := (c1.toNat - 48) * 10 + (c2.toNat - 48)
              if low ≤ v ∧ v ≤ high2 then some (v, rest2) else Option.none
            else
              let v := c1.toNat - 48
              if low ≤ v then some (v, rest) else Option.none
        | [] =>
            let v := c1.toNat - 48
            if low ≤ v then some (v, rest) else Option.none
      else Option.none
  | [] => Option.none

/-- Consumes one literal character. -/
def expectChar (c : Char) : List Char → Option (List Char)
  | x :: rest => if x = c then some rest else Option.none
  | [] => Option.none

/-- Consumes a nonempty run of whitespace (the format compiler replaces a
space in the format by a one-or-more whitespace regex; as the following
directive starts with a digit the greedy maximal run is the only viable
match). -/
def skipSpaces : List Char → Option (List Char)
  | c :: rest =>
      if isPySpace c then some (rest.dropWhile isPySpace) else Option.none
  | [] => Option.none

/-- Gregorian leap-year rule used by the datetime constructor. -/
def isLeapYear (y : Nat) : Bool :=
  (y % 4 = 0 && y % 100 ≠ 0) || y % 400 = 0

/-- Number of days in a month, as validated by the datetime constructor. -/
def daysInMonth (y m : Nat) : Nat :=
  if m = 2 then (if isLeapYear y then 29 else 28)
  else if m = 4 ∨ m = 6 ∨ m = 9 ∨ m = 11 then 30
  else 31

/-- Core of datetime.datetime.strptime(s, the fixed year-month-day
hour:minute:second format): the compiled regex must match the whole input,
and the datetime constructor then requires the year to be at least 1 (the
four-digit year is at most 9999) and the day to exist in the month. -/
def strptimeFixed (cs : List Char) : Option PyDateTime :=
  match parse4digits cs with
  | Option.none => Option.none
  | some (y, cs1) =>
  match expectChar '-' cs1 with
  | Option.none => Option.none
  | some cs2 =>
  match parse2or1 1 12 cs2 with
  | Option.none => Option.none
  | some (m, cs3) =>
  match expectChar '-' cs3 with
  | Option.none => Option.none
  | some cs4 =>
  match parse2or1 1 31 cs4 with
  | Option.none => Option.none
  | some (d, cs5) =>
  match skipSpaces cs5 with
  | Option.none => Option.none
  | some cs6 =>
  match parse2or1 0 23 cs6 with
  | Option.none => Option.none
  | some (h, cs7) =>
  match expectChar ':' cs7 with
  | Option.none => Option.none
  | some cs8 =>
  match parse2or1 0 59 cs8 with
  | Option.none => Option.none
  | some (mi, cs9) =>
  match expectChar ':' cs9 with
  | Option.none => Option.none
  | some cs10 =>
  match parse2or1 0 59 cs10 with
  | Option.none => Option.none
  | some (s, cs11) =>
  match cs11 with
  | [] =>
      if 1 ≤ y ∧ d ≤ daysInMonth y m then
        some ⟨y, m, d, h, mi, s⟩
      else Option.none
  | _ :: _ => Option.none

/-- parse_iso_str from report_interpreters.py: strptime with the fixed
format; a non-matching string raises ValueError (from strptime or from the
datetime constructor), a non-string argument raises TypeError. -/
def parse_iso_str (v : Value) : Except PyErr PyDateTime :=
  match v with
  | .str s =>
      match strptimeFixed s.data with
      | some dt => .ok dt
      | Option.none =>
          .error (.valueError ("time data " ++ s ++ " does not match format"))
  | _ => .error (.typeError "strptime() argument 1 must be string")

/-- parse_yes_no_str from report_interpreters.py: lower-cases the argument
and compares against the two accepted letters; anything else raises
ValueError.  A non-string argument has no lower method, so the attribute
access raises AttributeError. -/
def parse_yes_no_str (v : Value) : Except PyErr Bool :=
  match v with
  | .str s =>
      let l := lowerStr s
      if l = "n" then .ok false
      else if l = "y" then .ok true
      else .error (.valueError (s ++ " not a valid boolean string."))
  | _ => .error (.attributeError "object has no attribute lower")

/-- Case-insensitive character-list comparison used for the special float
spellings inf, infinity and nan. -/
def lowerList (cs : List Char) : List Char := cs.map lowerChar

/-- Numeric core of the Python float builtin on the remainder of a string
after whitespace stripping and sign extraction: an integer part and an
optional fractional part (at least one digit between them), then an
optional exponent marker with optional sign and mandatory digits; the
whole remainder must be consumed. -/
def parseFloatNumeric (negative : Bool) (cs : List Char) : Option PyFloat :=
  let ipSplit := cs.span Char.isDigit
  let intPart := ipSplit.1
  let afterInt := ipSplit.2
  let fracSplit : Option (List Char) × List Char :=
    match afterInt with
    | '.' :: rest =>
        let fs := rest.span Char.isDigit
        (some fs.1, fs.2)
    | _ => (Option.none, afterInt)
  let fracPart := fracSplit.1
  let afterFrac := fracSplit.2
  if intPart = [] ∧ (fracPart = Option.none ∨ fracPart = some []) then
    Option.none
  else
    let mant : ℚ := (digitsToNat intPart : ℚ) +
      (match fracPart with
       | some f => (digitsToNat f : ℚ) / ((10 : ℚ) ^ f.length)
       | Option.none => 0)
    let signed : ℚ := if negative then -mant else mant
    match afterFrac with
    | [] => some (.finite signed)
    | e :: rest =>
        if e = 'e' ∨ e = 'E' then
          let esplit : Int × List Char :=
            match rest with
            | '+' :: r => (1, r)
            | '-' :: r => (-1, r)
            | r => (1, r)
          let edigits := esplit.2.span Char.isDigit
          if edigits.1 = [] ∨ edigits.2 ≠ [] then Option.none
          else some (.finite (signed *
            (10 : ℚ) ^ (esplit.1 * (digitsToNat edigits.1 : Int))))
        else Option.none

/-- String parsing of the Python float builtin: strip whitespace, take an
optional sign, then either one of the special spellings (inf, infinity,
nan, case-insensitive) or a decimal numeral with optional fraction and
exponent. -/
def parseFloatStr (s : String) : Option PyFloat :=
  let cs := (s.data.dropWhile isPySpace).reverse.dropWhile isPySpace
    |>.reverse
  let signSplit : Bool × List Char :=
    match cs with
    | '+' :: rest => (false, rest)
    | '-' :: rest => (true, rest)
    | rest => (false, rest)
  let negative := signSplit.1
  let body := signSplit.2
  if lowerList body = "inf".data ∨ lowerList body = "infinity".data then
    some (.infinite negative)
  else if lowerList body = "nan".data then some .nan
  else parseFloatNumeric negative body

/-- Python float builtin applied to a record value: strings are parsed,
numbers pass through, booleans coerce to 0 or 1 (bool is an int subclass),
and any other type raises TypeError; an unparseable string raises
ValueError. -/
def pyFloat (v : Value) : Except PyErr PyFloat :=
  match v with
  | .str s =>
      match parseFloatStr s with
      | some f => .ok f
      | Option.none =>
          .error (.valueError ("could not convert string to float: " ++ s))
  | .num f => .ok f
  | .bool b => .ok (.finite (if b then 1 else 0))
  | .date _ => .error (.typeError "float() argument must be a string or a number")
  | .none => .error (.typeError "float() argument must be a string or a number")

/-- The three TRACER report categories. -/
inductive ReportCategory : Type
  | contribution
  | expenditure
  | loan
  deriving DecidableEq, Repr, Fintype

/-- The three field groups each interpreter converts transactionally. -/
inductive FieldGroup : Type
  | amounts
  | dates
  | booleans
  deriving DecidableEq, Repr, Fintype

/-- Fields of each group for each category, in the order the source reads
them inside the corresponding try block. -/
def groupFields : ReportCategory → FieldGroup → List String
  | .contribution, .amounts => ["ContributionAmount"]
  | .contribution, .dates => ["ContributionDate", "FiledDate"]
  | .contribution, .booleans => ["Amended", "Amendment"]
  | .expenditure, .amounts => ["ExpenditureAmount"]
  | .expenditure, .dates => ["ExpenditureDate", "FiledDate"]
  | .expenditure, .booleans => ["Amended", "Amendment"]
  | .loan, .amounts =>
      ["PaymentAmount", "LoanAmount", "InterestRate", "InterestPayment",
       "LoanBalance"]
  | .loan, .dates => ["PaymentDate", "FiledDate", "LoanDate"]
  | .loan, .booleans => ["Amended", "Amendment"]

/-- Status key written by each group. -/
def flagKey : FieldGroup → String
  | .amounts => "AmountsInterpreted"
  | .dates => "DatesInterpreted"
  | .booleans => "BooleanFieldsInterpreted"

/-- Primitive parser applied to the fields of a group, wrapping the typed
result back into a record value. -/
def groupParse : FieldGroup → Value → Except PyErr Value
  | .amounts, v => (pyFloat v).map Value.num
  | .dates, v => (parse_iso_str v).map Value.date
  | .booleans, v => (parse_yes_no_str v).map Value.bool

/-- Body of a group try block before any assignment: read and parse every
field of the group in order, collecting the parsed values.  The first
failing read (KeyError) or parse aborts the body, exactly as the straight-
line Python code does, before anything is written. -/
def readParsed (r : Record) (g : FieldGroup) :
    List String → Except PyErr (List (String × Value))
  | [] => .ok []
  | k :: rest =>
      match dictGet r k with
      | .error e => .error e
      | .ok v =>
          match groupParse g v with
          | .error e => .error e
          | .ok v2 =>
              match readParsed r g rest with
              | .error e => .error e
              | .ok tail => .ok ((k, v2) :: tail)

/-- Exception classes caught by the except clauses of each category's
interpreter: interpret_contribution_entry catches ValueError, TypeError and
AttributeError; interpret_expenditure_entry and interpret_loan_entry catch
only ValueError. -/
def catchesOf : ReportCategory → PyErr → Bool
  | .contribution, .valueError _ => true
  | .contribution, .typeError _ => true
  | .contribution, .attributeError _ => true
  | .contribution, _ => false
  | _, .valueError _ => true
  | _, _ => false

/-- Writes a list of parsed field values into a record in order. -/
def writeAll (r : Record) (ps : List (String × Value)) : Record :=
  ps.foldl (fun acc p => setKey acc p.1 p.2) r

/-- One try block of an entry interpreter: run the body; on success set the
group's status flag to True and write the parsed values; on an exception of
a caught class set only the status flag to False; any other exception
propagates. -/
def groupStep (c : ReportCategory) (g : FieldGroup) (r : Record) :
    Except PyErr Record :=
  match readParsed r g (groupFields c g) with
  | .ok ps => .ok (writeAll (setKey r (flagKey g) (.bool true)) ps)
  | .error e =>
      if catchesOf c e then .ok (setKey r (flagKey g) (.bool false))
      else .error e

/-- Entry interpreter common to the three categories: the amounts, dates
and booleans try blocks in source order, then return the entry. -/
def interpretEntry (c : ReportCategory) (r : Record) : Except PyErr Record := do
  let r1 ← groupStep c .amounts r
  let r2 ← groupStep c .dates r1
  groupStep c .booleans r2

/-- interpret_contribution_entry from report_interpreters.py. -/
def interpret_contribution_entry : Record → Except PyErr Record :=
  interpretEntry .contribution

/-- interpret_expenditure_entry from report_interpreters.py. -/
def interpret_expenditure_entry : Record → Except PyErr Record :=
  interpretEntry .expenditure

/-- interpret_loan_entry from report_interpreters.py. -/
def interpret_loan_entry : Record → Except PyErr Record :=
  interpretEntry .loan

/-- Python 2 builtin map over a list: eager, left to right, the first
exception aborts the whole call. -/
def pyMap (f : Record → Except PyErr Record) :
    List Record → Except PyErr (List Record)
  | [] => .ok []
  | x :: xs => do
      let y ← f x
      let ys ← pyMap f xs
      .ok (y :: ys)

/-- interpret_contributions_data from report_interpreters.py. -/
def interpret_contributions_data : List Record → Except PyErr (List Record) :=
  pyMap interpret_contribution_entry

/-- interpret_expenditure_data from report_interpreters.py. -/
def interpret_expenditure_data : List Record → Except PyErr (List Record) :=
  pyMap interpret_expenditure_entry

/-- interpret_loan_data from report_interpreters.py. -/
def interpret_loan_data : List Record → Except PyErr (List Record) :=
  pyMap interpret_loan_entry

/-- Report type strings from constants.py. -/
def REPORT_CONTRIB_DATA : String := "ContributionData"

/-- Report type string for expenditure reports from constants.py. -/
def REPORT_EXPEND_DATA : String := "ExpenditureData"

/-- Report type string for loan reports from constants.py. -/
def REPORT_LOAN_DATA : String := "LoanData"

/-- REPORT_TYPES from constants.py. -/
def REPORT_TYPES : List String :=
  [REPORT_CONTRIB_DATA, REPORT_EXPEND_DATA, REPORT_LOAN_DATA]

/-- is_valid_report_type from retrieval.py. -/
def is_valid_report_type (report_type : String) : Bool :=
  REPORT_TYPES.contains report_type

/-- REPORT_TYPE_INTERPRETERS from retrieval.py: the dispatch dict mapping a
report type string to its batch interpreter. -/
def REPORT_TYPE_INTERPRETERS :
    List (String × (List Record → Except PyErr (List Record))) :=
  [(REPORT_CONTRIB_DATA, interpret_contributions_data),
   (REPORT_EXPEND_DATA, interpret_expenditure_data),
   (REPORT_LOAN_DATA, interpret_loan_data)]

/-- get_report_interpreted from retrieval.py, with the downloaded and
csv-tokenized rows supplied as input (download, unzip and tokenization are
external IO): an unrecognized report type raises ValueError, otherwise the
interpreter selected from the dispatch dict is applied to the rows. -/
def get_report_interpreted (raw : List Record) (report_type : String) :
    Except PyErr (List Record) :=
  if ¬ is_valid_report_type report_type then
    .error (.valueError (report_type ++ " is not a valid report type."))
  else
    match REPORT_TYPE_INTERPRETERS.lookup report_type with
    | some interp => interp raw
    | Option.none => .error (.keyError report_type)

/-- FIELD_TRANSFORM_INDEX from mongo_aggregator.py. -/
def FIELD_TRANSFORM_INDEX : List (String × String) :=
  [("CO_ID", "commiteeID"),
   ("MI", "middleInitial"),
   ("ContributionAmount", "amount"),
   ("ExpenditureAmount", "amount"),
   ("LoanDate", "loanStartDate"),
   ("PaymentDate", "date")]

/-- Python str() on a record value, as used when consolidating addresses. -/
def pyStr : Value → String
  | .str s => s
  | .bool b => if b then "True" else "False"
  | .none => "None"
  | .num _ => "float"
  | .date _ => "datetime"

/-- Lower-cases the first character of a key, as clean_entry does. -/
def lcFirst (s : String) : String :=
  match s.data with
  | [] => ""
  | c :: rest => ⟨lowerChar c :: rest⟩

/-- Renaming loop of clean_entry: every remaining key is mapped through
FIELD_TRANSFORM_INDEX (or kept), first character lower-cased, and written
into the accumulating new entry. -/
def cleanLoop (entry newEntry : Record) : Record :=
  entry.foldl
    (fun acc kv =>
      let renamed :=
        match FIELD_TRANSFORM_INDEX.lookup kv.1 with
        | some n => n
        | Option.none => kv.1
      setKey acc (lcFirst renamed) kv.2)
    newEntry

/-- clean_entry from mongo_aggregator.py: consolidate Address1/Address2
into a single address field (reading Address2 raises KeyError when Address1
is present but Address2 absent), then rename and lower-case the remaining
keys into a fresh record. -/
def clean_entry (entry : Record) : Except PyErr Record :=
  match lookupKey entry "Address1" with
  | some a1 => do
      let a2 ← dictGet entry "Address2"
      let address :=
        if a2 = Value.str "" then pyStr a1 else pyStr a1 ++ " " ++ pyStr a2
      let entry2 := delKey (delKey entry "Address1") "Address2"
      .ok (cleanLoop entry2 [("address", .str address)])
  | Option.none => .ok (cleanLoop entry [])

/-- An upsert issued against a collection of the Mongo database, keyed by
the record identifier. -/
inductive DbOp : Type
  | upsert (collection : String) (recordID : Value) (doc : Record)
  deriving DecidableEq, Repr

/-- update_contribution_entry from mongo_aggregator.py: clean the entry and
upsert it into the contributions collection keyed by recordID. -/
def update_contribution_entry (entry : Record) : Except PyErr DbOp := do
  let e ← clean_entry entry
  let rid ← dictGet e "recordID"
  .ok (.upsert "contributions" rid e)

/-- update_expenditure_entry from mongo_aggregator.py. -/
def update_expenditure_entry (entry : Record) : Except PyErr DbOp := do
  let e ← clean_entry entry
  let rid ← dictGet e "recordID"
  .ok (.upsert "expenditures" rid e)

/-- update_loan_entry from mongo_aggregator.py. -/
def update_loan_entry (entry : Record) : Except PyErr DbOp := do
  let e ← clean_entry entry
  let rid ← dictGet e "recordID"
  .ok (.upsert "loans" rid e)

/-- Strategy table built by UpdateStrategyFactory: get_strategy returns the
per-category update function, or None for an unrecognized report type. -/
def get_strategy (report_type : String) :
    Option (Record → Except PyErr DbOp) :=
  ([(REPORT_CONTRIB_DATA, update_contribution_entry),
    (REPORT_EXPEND_DATA, update_expenditure_entry),
    (REPORT_LOAN_DATA, update_loan_entry)]).lookup report_type

/-- Names visible in the scope of the update_entry function body: its
parameters, its locals, and the module-level globals of
mongo_aggregator.py.  Neither reassign_id nor force_copy is among them. -/
def update_entry_scope : List String :=
  ["database", "entry", "report_type", "factory", "strategy",
   "FIELD_TRANSFORM_INDEX", "UpdateStrategyFactory", "clean_entry",
   "update_contribution_entry", "update_expenditure_entry",
   "update_loan_entry", "insert_contribution_entries",
   "insert_expenditure_entries", "insert_loan_entries", "update_entry",
   "update_contribution_entries", "update_expenditure_entries",
   "update_loan_entries", "bson", "copy", "pymongo", "constants"]

/-- Evaluation of a bare name in Python: a name not bound in any enclosing
scope raises NameError. -/
def loadName (scope : List String) (n : String) : Except PyErr Unit :=
  if scope.contains n then .ok ()
  else .error (.nameError ("name " ++ n ++ " is not defined"))

/-- update_entry from mongo_aggregator.py: look up the strategy for the
report type (ValueError when unrecognized), then call it with the keyword
arguments reassign_id and force_copy.  Python evaluates the argument
expressions before the call, so the two unbound names are resolved first;
the strategy call itself is only reached if both resolutions succeed. -/
def update_entry (entry : Record) (report_type : String) :
    Except PyErr DbOp :=
  match get_strategy report_type with
  | Option.none =>
      .error (.valueError (report_type ++ " not a recognized report type."))
  | some strategy => do
      let _ ← loadName update_entry_scope "reassign_id"
      let _ ← loadName update_entry_scope "force_copy"
      strategy entry

/-- True when every value of the record is a Python string, the shape of a
raw record produced by the csv tokenizer. -/
def stringValued (r : Record) : Bool :=
  r.all fun kv => kv.2.isStr

/-- All fields the given category's interpreter reads, in read order. -/
def expectedFields (c : ReportCategory) : List String :=
  groupFields c .amounts ++ groupFields c .dates ++ groupFields c .booleans

/-- True when every field the category's interpreter reads is present. -/
def allPresent (c : ReportCategory) (r : Record) : Bool :=
  (expectedFields c).all fun k => (lookupKey r k).isSome

/-- True when the body of the group's try block succeeds on the record:
every field of the group is present and parses. -/
def groupSucceeds (c : ReportCategory) (g : FieldGroup) (r : Record) : Bool :=
  (readParsed r g (groupFields c g)).toBool

/-- Extensional equality of records as Python dicts: the same lookup result
on every key (association lists that differ only in binding order denote
the same dict). -/
def recordEquiv (r1 r2 : Record) : Prop :=
  ∀ k, lookupKey r1 k = lookupKey r2 k

/-- The three status keys added by interpretation. -/
def statusKeys : List String :=
  ["AmountsInterpreted", "DatesInterpreted", "BooleanFieldsInterpreted"]

/-- Sequential execution of a list of group try blocks on a record. -/
def runSeq (c : ReportCategory) : List FieldGroup → Record → Except PyErr Record
  | [], r => .ok r
  | g :: gs, r => do
      let r1 ← groupStep c g r
      runSeq c gs r1

/-- Dispatch from a report category to its batch interpreter, as the
REPORT_TYPE_INTERPRETERS dict does for the category strings. -/
def interpretData : ReportCategory → List Record → Except PyErr (List Record)
  | .contribution => interpret_contributions_data
  | .expenditure => interpret_expenditure_data
  | .loan => interpret_loan_data

/-- Two-digit zero-padded rendering of a number below 100. -/
def pad2 (n : Nat) : List Char :=
  [Char.ofNat (48 + n / 10), Char.ofNat (48 + n % 10)]

/-- Four-digit zero-padded rendering of a number below 10000. -/
def pad4 (n : Nat) : List Char :=
  [Char.ofNat (48 + n / 1000), Char.ofNat (48 + n / 100 % 10),
   Char.ofNat (48 + n / 10 % 10), Char.ofNat (48 + n % 10)]

/-- The zero-padded timestamp shape named by the specification. -/
def isoRender (y m d h mi s : Nat) : String :=
  ⟨pad4 y ++ '-' :: pad2 m ++ '-' :: pad2 d ++ ' ' :: pad2 h ++
    ':' :: pad2 mi ++ ':' :: pad2 s⟩

/-- A well-formed contribution record with all expected fields present as
strings. -/
def recContribOk : Record :=
  [("ContributionAmount", .str "100"),
   ("ContributionDate", .str "2013-01-01 00:00:00"),
   ("FiledDate", .str "2013-01-02 00:00:00"),
   ("Amended", .str "Y"), ("Amendment", .str "N")]

/-- A contribution record with FiledDate absent. -/
def recContribMissingFiled : Record :=
  [("ContributionAmount", .str "100"),
   ("ContributionDate", .str "2013-01-01 00:00:00"),
   ("Amended", .str "Y"), ("Amendment", .str "N")]

/-- A record with none of the expected contribution fields. -/
def recOtherOnly : Record := [("X-Other", .str "v")]

/-- An expenditure record whose fields are all present but whose amount
holds the Python None value rather than a string. -/
def recExpendNone : Record :=
  [("ExpenditureAmount", Value.none),
   ("ExpenditureDate", .str "2013-01-01 00:00:00"),
   ("FiledDate", .str "2013-01-02 00:00:00"),
   ("Amended", .str "Y"), ("Amendment", .str "N")]

/-- A loan record whose fields are all present but whose payment amount
holds the Python None value rather than a string. -/
def recLoanNone : Record :=
  [("PaymentAmount", Value.none), ("LoanAmount", .str "1"),
   ("InterestRate", .str "2"), ("InterestPayment", .str "3"),
   ("LoanBalance", .str "4"),
   ("PaymentDate", .str "2013-01-01 00:00:00"),
   ("FiledDate", .str "2013-01-02 00:00:00"),
   ("LoanDate", .str "2013-01-03 00:00:00"),
   ("Amended", .str "Y"), ("Amendment", .str "N")]

/-- A contribution record with unparseable amount and date strings and all
fields present, on which every group except booleans fails. -/
def recContribBad : Record :=
  [("ContributionAmount", .str "abc"),
   ("ContributionDate", .str "2013-01-01"),
   ("FiledDate", .str "2013-01-02 00:00:00"),
   ("Amended", .str "Y"), ("Amendment", .str "N")]


/-- A contribution record with every expected field present but holding
the Python None value. -/
def recContribNoneVals : Record :=
  [("ContributionAmount", Value.none), ("ContributionDate", Value.none),
   ("FiledDate", Value.none), ("Amended", Value.none),
   ("Amendment", Value.none)]

theorem lookup_setKey (r : Record) (k : String) (v : Value) (k2 : String) :
    lookupKey (setKey r k v) k2 = if k = k2 then some v else lookupKey r k2 := by
  induction r with
  | nil => simp [setKey, lookupKey]
  | cons hd tl ih =>
      obtain ⟨hk, hv⟩ := hd
      by_cases h1 : hk = k
      · subst h1
        simp only [setKey, if_pos rfl, lookupKey]
        by_cases h2 : hk = k2 <;> simp [h2]
      · simp only [setKey, if_neg h1, lookupKey]
        by_cases h2 : hk = k2
        · subst h2
          have : ¬ k = hk := fun h => h1 h.symm
          simp [this]
        · simp [h2, ih]

theorem mem_recKeys_iff (r : Record) (k : String) :
    k ∈ recKeys r ↔ (lookupKey r k).isSome := by
  induction r with
  | nil => simp [recKeys, lookupKey]
  | cons hd tl ih =>
      obtain ⟨hk, hv⟩ := hd
      by_cases h : hk = k
      · subst h; simp [recKeys, lookupKey]
      · simp only [recKeys, List.map_cons, List.mem_cons, lookupKey, if_neg h]
        constructor
        · rintro (h1 | h1)
          · exact absurd h1.symm h
          · exact (ih.mp (by simpa [recKeys] using h1))
        · intro h1
          right
          simpa [recKeys] using ih.mpr h1

theorem mem_recKeys_setKey (r : Record) (k : String) (v : Value) (k2 : String) :
    k2 ∈ recKeys (setKey r k v) ↔ k2 ∈ recKeys r ∨ k2 = k := by
  rw [mem_recKeys_iff, mem_recKeys_iff, lookup_setKey]
  by_cases h : k = k2
  · subst h; simp
  · have h2 : ¬ k2 = k := fun hh => h hh.symm
    simp [h, h2]

theorem lookup_writeAll_notMem (ps : List (String × Value)) (r : Record)
    (k : String) (h : k ∉ ps.map Prod.fst) :
    lookupKey (writeAll r ps) k = lookupKey r k := by
  induction ps generalizing r with
  | nil => simp [writeAll]
  | cons hd tl ih =>
      simp only [List.map_cons, List.mem_cons] at h
      push_neg at h
      have h2 := ih (setKey r hd.1 hd.2) h.2
      simp only [writeAll, List.foldl_cons] at h2 ⊢
      rw [h2, lookup_setKey, if_neg (fun hh => h.1 hh.symm)]

theorem lookup_writeAll_mem (ps : List (String × Value)) (r : Record)
    (k : String) (v : Value) (hnd : (ps.map Prod.fst).Nodup)
    (hmem : (k, v) ∈ ps) :
    lookupKey (writeAll r ps) k = some v := by
  induction ps generalizing r with
  | nil => simp at hmem
  | cons hd tl ih =>
      simp only [List.map_cons, List.nodup_cons] at hnd
      rcases List.mem_cons.mp hmem with h1 | h1
      · subst h1
        simp only [writeAll, List.foldl_cons]
        have : k ∉ tl.map Prod.fst := hnd.1
        rw [show (tl.foldl (fun acc p => setKey acc p.1 p.2)
            (setKey r k v)) = writeAll (setKey r k v) tl from rfl,
          lookup_writeAll_notMem _ _ _ this, lookup_setKey, if_pos rfl]
      · simp only [writeAll, List.foldl_cons]
        exact ih (setKey r hd.1 hd.2) hnd.2 h1

theorem mem_recKeys_writeAll (ps : List (String × Value)) (r : Record)
    (k : String) :
    k ∈ recKeys (writeAll r ps) ↔ k ∈ recKeys r ∨ k ∈ ps.map Prod.fst := by
  induction ps generalizing r with
  | nil => simp [writeAll]
  | cons hd tl ih =>
      simp only [writeAll, List.foldl_cons, List.map_cons, List.mem_cons]
      rw [show (tl.foldl (fun acc p => setKey acc p.1 p.2)
          (setKey r hd.1 hd.2)) = writeAll (setKey r hd.1 hd.2) tl from rfl,
        ih, mem_recKeys_setKey]
      tauto

theorem readParsed_map_fst (r : Record) (g : FieldGroup)
    (fs : List String) (ps : List (String × Value))
    (h : readParsed r g fs = .ok ps) : ps.map Prod.fst = fs := by
  induction fs generalizing ps with
  | nil =>
      simp only [readParsed] at h
      cases h
      simp
  | cons k1 rest ih =>
      simp only [readParsed] at h
      split at h
      · cases h
      · split at h
        · cases h
        · split at h
          · cases h
          · cases h
            next tail hta =>
              simp [ih tail hta]

theorem readParsed_mem (r : Record) (g : FieldGroup)
    (fs : List String) (ps : List (String × Value))
    (h : readParsed r g fs = .ok ps) (k : String) (v2 : Value)
    (hmem : (k, v2) ∈ ps) :
    ∃ v, lookupKey r k = some v ∧ groupParse g v = .ok v2 := by
  induction fs generalizing ps with
  | nil =>
      simp only [readParsed] at h
      cases h
      simp at hmem
  | cons k1 rest ih =>
      simp only [readParsed] at h
      split at h
      · cases h
      · next v hget =>
          split at h
          · cases h
          · next v2a hparse =>
              split at h
              · cases h
              · next tail hta =>
                  cases h
                  rcases List.mem_cons.mp hmem with h1 | h1
                  · obtain ⟨hk, hv⟩ := Prod.mk.injEq .. ▸ h1
                    subst hk
                    subst hv
                    refine ⟨v, ?_, hparse⟩
                    simp only [dictGet] at hget
                    cases hl : lookupKey r k
                    · rw [hl] at hget; cases hget
                    · rw [hl] at hget; cases hget; rfl
                  · exact ih tail hta h1

theorem readParsed_congr (r1 r2 : Record) (g : FieldGroup)
    (fs : List String)
    (h : ∀ k ∈ fs, lookupKey r1 k = lookupKey r2 k) :
    readParsed r1 g fs = readParsed r2 g fs := by
  induction fs with
  | nil => rfl
  | cons k rest ih =>
      simp only [readParsed, dictGet, h k (List.mem_cons_self k rest)]
      have := ih (fun k2 hk2 => h k2 (List.mem_cons_of_mem k hk2))
      rw [this]

theorem map_error_inv {α β : Type} (f : α → β) (x : Except PyErr α)
    (e : PyErr) (h : x.map f = .error e) : x = .error e := by
  cases x with
  | error e2 =>
      simp only [Except.map] at h
      cases h
      rfl
  | ok a => simp [Except.map] at h

theorem pyFloat_err (v : Value) (e : PyErr) (h : pyFloat v = .error e) :
    (∃ m, e = .valueError m) ∨ (∃ m, e = .typeError m) := by
  cases v <;> simp only [pyFloat] at h
  case str s =>
    split at h
    · cases h
    · cases h
      exact Or.inl ⟨_, rfl⟩
  case num f => cases h
  case bool b => cases h
  case date d =>
    cases h
    exact Or.inr ⟨_, rfl⟩
  case none =>
    cases h
    exact Or.inr ⟨_, rfl⟩

theorem pyFloat_str_err (s : String) (e : PyErr)
    (h : pyFloat (.str s) = .error e) : ∃ m, e = .valueError m := by
  simp only [pyFloat] at h
  split at h
  · cases h
  · cases h
    exact ⟨_, rfl⟩

theorem parse_iso_str_err (v : Value) (e : PyErr)
    (h : parse_iso_str v = .error e) :
    (∃ m, e = .valueError m) ∨ (∃ m, e = .typeError m) := by
  cases v <;> simp only [parse_iso_str] at h
  case str s =>
    split at h
    · cases h
    · cases h
      exact Or.inl ⟨_, rfl⟩
  all_goals (cases h; exact Or.inr ⟨_, rfl⟩)

theorem parse_iso_str_str_err (s : String) (e : PyErr)
    (h : parse_iso_str (.str s) = .error e) : ∃ m, e = .valueError m := by
  simp only [parse_iso_str] at h
  split at h
  · cases h
  · cases h
    exact ⟨_, rfl⟩

theorem parse_yes_no_str_err (v : Value) (e : PyErr)
    (h : parse_yes_no_str v = .error e) :
    (∃ m, e = .valueError m) ∨ (∃ m, e = .attributeError m) := by
  cases v <;> simp only [parse_yes_no_str] at h
  case str s =>
    split at h
    · cases h
    · split at h
      · cases h
      · cases h
        exact Or.inl ⟨_, rfl⟩
  all_goals (cases h; exact Or.inr ⟨_, rfl⟩)

theorem parse_yes_no_str_str_err (s : String) (e : PyErr)
    (h : parse_yes_no_str (.str s) = .error e) : ∃ m, e = .valueError m := by
  simp only [parse_yes_no_str] at h
  split at h
  · cases h
  · split at h
    · cases h
    · cases h
      exact ⟨_, rfl⟩

theorem groupParse_err (g : FieldGroup) (v : Value) (e : PyErr)
    (h : groupParse g v = .error e) :
    (∃ m, e = .valueError m) ∨ (∃ m, e = .typeError m) ∨
      (∃ m, e = .attributeError m) := by
  cases g <;> simp only [groupParse] at h
  · rcases pyFloat_err v e (map_error_inv _ _ _ h) with h1 | h1
    · exact Or.inl h1
    · exact Or.inr (Or.inl h1)
  · rcases parse_iso_str_err v e (map_error_inv _ _ _ h) with h1 | h1
    · exact Or.inl h1
    · exact Or.inr (Or.inl h1)
  · rcases parse_yes_no_str_err v e (map_error_inv _ _ _ h) with h1 | h1
    · exact Or.inl h1
    · exact Or.inr (Or.inr h1)

theorem groupParse_str_err (g : FieldGroup) (s : String) (e : PyErr)
    (h : groupParse g (.str s) = .error e) : ∃ m, e = .valueError m := by
  cases g <;> simp only [groupParse] at h
  · exact pyFloat_str_err s e (map_error_inv _ _ _ h)
  · exact parse_iso_str_str_err s e (map_error_inv _ _ _ h)
  · exact parse_yes_no_str_str_err s e (map_error_inv _ _ _ h)

theorem groupFields_nodup : ∀ c g, (groupFields c g).Nodup := by decide

theorem flagKey_not_field : ∀ c g g2, flagKey g ∉ groupFields c g2 := by
  decide

theorem groupFields_disjoint :
    ∀ c g g2, g ≠ g2 → ∀ k ∈ groupFields c g, k ∉ groupFields c g2 := by
  decide

theorem flagKey_injective : ∀ g g2, flagKey g = flagKey g2 → g = g2 := by
  decide

theorem catches_valueError : ∀ c m, catchesOf c (.valueError m) = true := by
  intro c m
  cases c <;> rfl

theorem catches_keyError : ∀ c k, catchesOf c (.keyError k) = false := by
  intro c k
  cases c <;> rfl

theorem groupSucceeds_true_iff (c : ReportCategory) (g : FieldGroup)
    (r : Record) :
    groupSucceeds c g r = true ↔
      ∃ ps, readParsed r g (groupFields c g) = .ok ps := by
  simp only [groupSucceeds, Except.toBool, Except.isOk]
  cases h : readParsed r g (groupFields c g) <;> simp

theorem groupStep_err (c : ReportCategory) (g : FieldGroup) (r : Record)
    (e : PyErr) (h : groupStep c g r = .error e) :
    catchesOf c e = false ∧ readParsed r g (groupFields c g) = .error e := by
  simp only [groupStep] at h
  split at h
  · cases h
  · next e2 hrp =>
      split at h
      · cases h
      · next hc =>
          cases h
          exact ⟨Bool.not_eq_true _ ▸ (by simpa using hc), hrp⟩

theorem readParsed_str_err (r : Record) (g : FieldGroup) (fs : List String)
    (hstr : ∀ k ∈ fs, ∃ s, lookupKey r k = some (.str s)) (e : PyErr)
    (hrp : readParsed r g fs = .error e) : ∃ m, e = .valueError m := by
  induction fs with
  | nil =>
      simp only [readParsed] at hrp
      cases hrp
  | cons k rest ih =>
      simp only [readParsed] at hrp
      split at hrp
      · next hget =>
          obtain ⟨s, hs⟩ := hstr k (List.mem_cons_self k rest)
          simp [dictGet, hs] at hget
      · next v hget =>
          obtain ⟨s, hs⟩ := hstr k (List.mem_cons_self k rest)
          have hv : v = .str s := by
            simp [dictGet, hs] at hget
            exact hget.symm
          subst hv
          split at hrp
          · next hpe =>
              cases hrp
              exact groupParse_str_err g s e hpe
          · split at hrp
            · next hre =>
                cases hrp
                exact ih (fun k2 hk2 => hstr k2 (List.mem_cons_of_mem k hk2))
                  hre
            · cases hrp

theorem groupStep_ok_of_str (c : ReportCategory) (g : FieldGroup)
    (r : Record)
    (h : ∀ k ∈ groupFields c g, ∃ s, lookupKey r k = some (.str s)) :
    ∃ r2, groupStep c g r = .ok r2 := by
  cases hrp : readParsed r g (groupFields c g) with
  | ok ps =>
      exact ⟨writeAll (setKey r (flagKey g) (Value.bool true)) ps,
        by simp [groupStep, hrp]⟩
  | error e =>
      obtain ⟨m, hm⟩ := readParsed_str_err r g (groupFields c g) h e hrp
      subst hm
      exact ⟨setKey r (flagKey g) (Value.bool false),
        by simp [groupStep, hrp, catches_valueError]⟩

theorem groupStep_flag (c : ReportCategory) (g : FieldGroup) (r r2 : Record)
    (h : groupStep c g r = .ok r2) :
    lookupKey r2 (flagKey g) = some (.bool (groupSucceeds c g r)) := by
  simp only [groupStep] at h
  split at h
  · next ps hrp =>
      cases h
      have hfst := readParsed_map_fst r g (groupFields c g) ps hrp
      have hnm : flagKey g ∉ ps.map Prod.fst := by
        rw [hfst]
        exact flagKey_not_field c g g
      rw [lookup_writeAll_notMem _ _ _ hnm, lookup_setKey, if_pos rfl]
      have : groupSucceeds c g r = true :=
        (groupSucceeds_true_iff c g r).mpr ⟨ps, hrp⟩
      rw [this]
  · next e hrp =>
      split at h
      · cases h
        have : groupSucceeds c g r = false := by
          simp only [groupSucceeds, hrp, Except.toBool, Except.isOk]
        rw [this, lookup_setKey, if_pos rfl]
      · cases h

theorem groupStep_preserve (c : ReportCategory) (g : FieldGroup)
    (r r2 : Record) (h : groupStep c g r = .ok r2) (k : String)
    (hflag : k ≠ flagKey g) (hfield : k ∉ groupFields c g) :
    lookupKey r2 k = lookupKey r k := by
  simp only [groupStep] at h
  split at h
  · next ps hrp =>
      cases h
      have hfst := readParsed_map_fst r g (groupFields c g) ps hrp
      have hnm : k ∉ ps.map Prod.fst := by rw [hfst]; exact hfield
      rw [lookup_writeAll_notMem _ _ _ hnm, lookup_setKey,
        if_neg (fun hh => hflag hh.symm)]
  · split at h
    · cases h
      rw [lookup_setKey, if_neg (fun hh => hflag hh.symm)]
    · cases h

theorem groupStep_field_ok (c : ReportCategory) (g : FieldGroup)
    (r r2 : Record) (h : groupStep c g r = .ok r2)
    (hsucc : groupSucceeds c g r = true) (k : String)
    (hk : k ∈ groupFields c g) :
    ∃ v v2, lookupKey r k = some v ∧ groupParse g v = .ok v2 ∧
      lookupKey r2 k = some v2 := by
  obtain ⟨ps, hrp⟩ := (groupSucceeds_true_iff c g r).mp hsucc
  simp only [groupStep, hrp] at h
  cases h
  have hfst := readParsed_map_fst r g (groupFields c g) ps hrp
  have hkps : k ∈ ps.map Prod.fst := by rw [hfst]; exact hk
  obtain ⟨⟨k1, v2⟩, hmem, hk1⟩ := List.mem_map.mp hkps
  rw [show k1 = k from hk1] at hmem
  obtain ⟨v, hv, hp⟩ := readParsed_mem r g (groupFields c g) ps hrp k v2 hmem
  refine ⟨v, v2, hv, hp, ?_⟩
  have hnd : (ps.map Prod.fst).Nodup := by rw [hfst]; exact groupFields_nodup c g
  exact lookup_writeAll_mem ps _ k v2 hnd hmem

theorem groupStep_field_fail (c : ReportCategory) (g : FieldGroup)
    (r r2 : Record) (h : groupStep c g r = .ok r2)
    (hsucc : groupSucceeds c g r = false) (k : String)
    (hk : k ∈ groupFields c g) :
    lookupKey r2 k = lookupKey r k := by
  simp only [groupStep] at h
  split at h
  · next ps hrp =>
      have := (groupSucceeds_true_iff c g r).mpr ⟨ps, hrp⟩
      rw [this] at hsucc
      cases hsucc
  · split at h
    · cases h
      have hne : k ≠ flagKey g := by
        intro hh
        exact flagKey_not_field c g g (hh ▸ hk)
      rw [lookup_setKey, if_neg (fun hh => hne hh.symm)]
    · cases h

theorem groupStep_keys (c : ReportCategory) (g : FieldGroup) (r r2 : Record)
    (h : groupStep c g r = .ok r2)
    (hpres : ∀ k ∈ groupFields c g, k ∈ recKeys r) (k : String) :
    k ∈ recKeys r2 ↔ k ∈ recKeys r ∨ k = flagKey g := by
  simp only [groupStep] at h
  split at h
  · next ps hrp =>
      cases h
      have hfst := readParsed_map_fst r g (groupFields c g) ps hrp
      rw [mem_recKeys_writeAll, mem_recKeys_setKey, hfst]
      constructor
      · rintro ((h1 | h1) | h1)
        · exact Or.inl h1
        · exact Or.inr h1
        · exact Or.inl (hpres k h1)
      · rintro (h1 | h1)
        · exact Or.inl (Or.inl h1)
        · exact Or.inl (Or.inr h1)
  · split at h
    · cases h
      rw [mem_recKeys_setKey]
    · cases h

theorem groupSucceeds_congr (c : ReportCategory) (g : FieldGroup)
    (r1 r2 : Record)
    (h : ∀ k ∈ groupFields c g, lookupKey r1 k = lookupKey r2 k) :
    groupSucceeds c g r1 = groupSucceeds c g r2 := by
  simp only [groupSucceeds, readParsed_congr r1 r2 g (groupFields c g) h]

/-- Full characterization of running a duplicate-free list of group try
blocks on a record whose relevant fields are present strings: the run
returns a record; each executed group's status flag reflects whether that
group's body succeeds on the original record, its fields are all replaced
by parsed values exactly when the body succeeds; every other key of the
record is untouched; and the key set grows by exactly the executed flags. -/
theorem runSeq_spec (c : ReportCategory) (gs : List FieldGroup)
    (hnd : gs.Nodup) (r : Record)
    (hstr : ∀ g ∈ gs, ∀ k ∈ groupFields c g,
      ∃ s, lookupKey r k = some (.str s)) :
    ∃ out, runSeq c gs r = .ok out ∧
      (∀ g ∈ gs,
        lookupKey out (flagKey g) = some (.bool (groupSucceeds c g r)) ∧
        (groupSucceeds c g r = true → ∀ k ∈ groupFields c g,
          ∃ v v2, lookupKey r k = some v ∧ groupParse g v = .ok v2 ∧
            lookupKey out k = some v2) ∧
        (groupSucceeds c g r = false → ∀ k ∈ groupFields c g,
          lookupKey out k = lookupKey r k)) ∧
      (∀ k, (∀ g ∈ gs, k ≠ flagKey g ∧ k ∉ groupFields c g) →
        lookupKey out k = lookupKey r k) ∧
      (∀ k, k ∈ recKeys out ↔ k ∈ recKeys r ∨ ∃ g ∈ gs, k = flagKey g) := by
  induction gs generalizing r with
  | nil =>
      refine ⟨r, rfl, ?_, ?_, ?_⟩
      · intro g hg; cases hg
      · intro k _; rfl
      · intro k; simp
  | cons g gs ih =>
      have hgnotin : g ∉ gs := (List.nodup_cons.mp hnd).1
      have hndtail : gs.Nodup := (List.nodup_cons.mp hnd).2
      obtain ⟨r1, hr1⟩ := groupStep_ok_of_str c g r
        (hstr g (List.mem_cons_self g gs))
      have hpreserve : ∀ g2 ∈ gs, ∀ k ∈ groupFields c g2,
          lookupKey r1 k = lookupKey r k := by
        intro g2 hg2 k hk
        have hne : g2 ≠ g := fun hh => hgnotin (hh ▸ hg2)
        exact groupStep_preserve c g r r1 hr1 k
          (fun hh => flagKey_not_field c g g2 (hh ▸ hk))
          (groupFields_disjoint c g2 g hne k hk)
      have hstr1 : ∀ g2 ∈ gs, ∀ k ∈ groupFields c g2,
          ∃ s, lookupKey r1 k = some (.str s) := by
        intro g2 hg2 k hk
        obtain ⟨s, hs⟩ := hstr g2 (List.mem_cons_of_mem g hg2) k hk
        exact ⟨s, (hpreserve g2 hg2 k hk).trans hs⟩
      obtain ⟨out, hout, hgroups, hother, hkeys⟩ := ih hndtail r1 hstr1
      have hsucc_eq : ∀ g2 ∈ gs, groupSucceeds c g2 r1 = groupSucceeds c g2 r :=
        fun g2 hg2 => groupSucceeds_congr c g2 r1 r (hpreserve g2 hg2)
      have hrun : runSeq c (g :: gs) r = .ok out := by
        simp only [runSeq, bind, Except.bind, hr1]
        exact hout
      have houtr1 : ∀ k, (∀ g2 ∈ gs, k ≠ flagKey g2 ∧ k ∉ groupFields c g2) →
          lookupKey out k = lookupKey r1 k := hother
      refine ⟨out, hrun, ?_, ?_, ?_⟩
      · intro g2 hg2
        rcases List.mem_cons.mp hg2 with hh | hh
        · subst hh
          have hflagother : ∀ g3 ∈ gs, flagKey g2 ≠ flagKey g3 ∧
              flagKey g2 ∉ groupFields c g3 := by
            intro g3 hg3
            refine ⟨fun hh2 => ?_, flagKey_not_field c g2 g3⟩
            exact hgnotin (flagKey_injective g2 g3 hh2 ▸ hg3)
          refine ⟨?_, ?_, ?_⟩
          · rw [houtr1 (flagKey g2) hflagother]
            exact groupStep_flag c g2 r r1 hr1
          · intro hsucc k hk
            obtain ⟨v, v2, hv, hp, hl⟩ :=
              groupStep_field_ok c g2 r r1 hr1 hsucc k hk
            refine ⟨v, v2, hv, hp, ?_⟩
            have hkother : ∀ g3 ∈ gs, k ≠ flagKey g3 ∧
                k ∉ groupFields c g3 := by
              intro g3 hg3
              have hne : g2 ≠ g3 := fun hh2 => hgnotin (hh2 ▸ hg3)
              exact ⟨fun hh2 => flagKey_not_field c g3 g2 (hh2 ▸ hk),
                groupFields_disjoint c g2 g3 hne k hk⟩
            rw [houtr1 k hkother]
            exact hl
          · intro hfail k hk
            have hl := groupStep_field_fail c g2 r r1 hr1 hfail k hk
            have hkother : ∀ g3 ∈ gs, k ≠ flagKey g3 ∧
                k ∉ groupFields c g3 := by
              intro g3 hg3
              have hne : g2 ≠ g3 := fun hh2 => hgnotin (hh2 ▸ hg3)
              exact ⟨fun hh2 => flagKey_not_field c g3 g2 (hh2 ▸ hk),
                groupFields_disjoint c g2 g3 hne k hk⟩
            rw [houtr1 k hkother]
            exact hl
        · obtain ⟨hflag, hsucc, hfail⟩ := hgroups g2 hh
          refine ⟨?_, ?_, ?_⟩
          · rw [hflag, hsucc_eq g2 hh]
          · intro hs k hk
            obtain ⟨v, v2, hv, hp, hl⟩ :=
              hsucc ((hsucc_eq g2 hh).trans hs) k hk
            exact ⟨v, v2, (hpreserve g2 hh k hk).symm.trans hv, hp, hl⟩
          · intro hs k hk
            have := hfail (by rw [hsucc_eq g2 hh]; exact hs) k hk
            rw [this]
            exact hpreserve g2 hh k hk
      · intro k hk
        have h1 : ∀ g2 ∈ gs, k ≠ flagKey g2 ∧ k ∉ groupFields c g2 :=
          fun g2 hg2 => hk g2 (List.mem_cons_of_mem g hg2)
        have h2 := hk g (List.mem_cons_self g gs)
        rw [houtr1 k h1]
        exact groupStep_preserve c g r r1 hr1 k h2.1 h2.2
      · intro k
        have hpres : ∀ k2 ∈ groupFields c g, k2 ∈ recKeys r := by
          intro k2 hk2
          obtain ⟨s, hs⟩ := hstr g (List.mem_cons_self g gs) k2 hk2
          rw [mem_recKeys_iff, hs]
          rfl
        rw [hkeys k, groupStep_keys c g r r1 hr1 hpres k]
        constructor
        · rintro ((h1 | h1) | ⟨g2, hg2, h2⟩)
          · exact Or.inl h1
          · exact Or.inr ⟨g, List.mem_cons_self g gs, h1⟩
          · exact Or.inr ⟨g2, List.mem_cons_of_mem g hg2, h2⟩
        · rintro (h1 | ⟨g2, hg2, h2⟩)
          · exact Or.inl (Or.inl h1)
          · rcases List.mem_cons.mp hg2 with hh | hh
            · exact Or.inl (Or.inr (hh ▸ h2))
            · exact Or.inr ⟨g2, hh, h2⟩

theorem lookup_mem (r : Record) (k : String) (v : Value)
    (h : lookupKey r k = some v) : (k, v) ∈ r := by
  induction r with
  | nil => cases h
  | cons hd tl ih =>
      obtain ⟨hk, hv⟩ := hd
      by_cases h2 : hk = k
      · subst h2
        simp only [lookupKey, if_pos rfl] at h
        cases h
        exact List.mem_cons_self _ _
      · simp only [lookupKey, if_neg h2] at h
        exact List.mem_cons_of_mem _ (ih h)

theorem mem_expectedFields (c : ReportCategory) (g : FieldGroup)
    (k : String) (hk : k ∈ groupFields c g) : k ∈ expectedFields c := by
  cases g <;> simp [expectedFields] <;> tauto

theorem str_fields_of_hyps (c : ReportCategory) (r : Record)
    (hs : stringValued r = true) (hp : allPresent c r = true) :
    ∀ g, ∀ k ∈ groupFields c g, ∃ s, lookupKey r k = some (.str s) := by
  intro g k hk
  have hmem : k ∈ expectedFields c := mem_expectedFields c g k hk
  have hsome : (lookupKey r k).isSome := by
    have := (List.all_eq_true.mp hp) k hmem
    simpa using this
  obtain ⟨v, hv⟩ := Option.isSome_iff_exists.mp hsome
  have hvin := lookup_mem r k v hv
  have hstr := (List.all_eq_true.mp hs) (k, v) hvin
  cases v <;> simp [Value.isStr] at hstr
  exact ⟨_, hv⟩

theorem interpretEntry_eq_runSeq (c : ReportCategory) (r : Record) :
    interpretEntry c r =
      runSeq c [FieldGroup.amounts, FieldGroup.dates, FieldGroup.booleans] r := by
  cases hA : groupStep c .amounts r with
  | error e => simp [interpretEntry, runSeq, bind, Except.bind, hA]
  | ok r1 =>
      cases hD : groupStep c .dates r1 with
      | error e => simp [interpretEntry, runSeq, bind, Except.bind, hA, hD]
      | ok r2 =>
          cases hB : groupStep c .booleans r2 with
          | error e =>
              simp [interpretEntry, runSeq, bind, Except.bind, hA, hD, hB]
          | ok r3 =>
              simp [interpretEntry, runSeq, bind, Except.bind, hA, hD, hB]

theorem flagKey_mem_statusKeys (g : FieldGroup) : flagKey g ∈ statusKeys := by
  cases g <;> simp [flagKey, statusKeys]

theorem statusKeys_eq_flags (k : String) :
    k ∈ statusKeys ↔ ∃ g, k = flagKey g := by
  constructor
  · intro h
    simp only [statusKeys, List.mem_cons, List.mem_singleton] at h
    rcases h with h | h | h
    · exact ⟨.amounts, h⟩
    · exact ⟨.dates, h⟩
    · exact ⟨.booleans, by simpa using h⟩
  · rintro ⟨g, hg⟩
    exact hg ▸ flagKey_mem_statusKeys g

/-- Full characterization of an entry interpreter on a record whose
expected fields are all present with string values. -/
theorem interpretEntry_spec (c : ReportCategory) (r : Record)
    (hs : stringValued r = true) (hp : allPresent c r = true) :
    ∃ out, interpretEntry c r = .ok out ∧
      (∀ g, lookupKey out (flagKey g) = some (.bool (groupSucceeds c g r)) ∧
        (groupSucceeds c g r = true → ∀ k ∈ groupFields c g,
          ∃ v v2, lookupKey r k = some v ∧ groupParse g v = .ok v2 ∧
            lookupKey out k = some v2) ∧
        (groupSucceeds c g r = false → ∀ k ∈ groupFields c g,
          lookupKey out k = lookupKey r k)) ∧
      (∀ k, k ∉ statusKeys → k ∉ expectedFields c →
        lookupKey out k = lookupKey r k) ∧
      (∀ k, k ∈ recKeys out ↔ k ∈ recKeys r ∨ k ∈ statusKeys) := by
  have hnd : ([FieldGroup.amounts, FieldGroup.dates,
      FieldGroup.booleans]).Nodup := by decide
  have hstr := str_fields_of_hyps c r hs hp
  obtain ⟨out, hout, hgroups, hother, hkeys⟩ :=
    runSeq_spec c [.amounts, .dates, .booleans] hnd r
      (fun g _ => hstr g)
  have hmemg : ∀ g : FieldGroup,
      g ∈ [FieldGroup.amounts, FieldGroup.dates, FieldGroup.booleans] := by
    intro g
    cases g <;> simp
  refine ⟨out, (interpretEntry_eq_runSeq c r).trans hout, ?_, ?_, ?_⟩
  · intro g
    exact hgroups g (hmemg g)
  · intro k hks hkf
    refine hother k ?_
    intro g _
    exact ⟨fun hh => hks (hh ▸ flagKey_mem_statusKeys g),
      fun hh => hkf (mem_expectedFields c g k hh)⟩
  · intro k
    rw [hkeys k]
    constructor
    · rintro (h1 | ⟨g, _, h2⟩)
      · exact Or.inl h1
      · exact Or.inr (h2 ▸ flagKey_mem_statusKeys g)
    · rintro (h1 | h1)
      · exact Or.inl h1
      · obtain ⟨g, hg⟩ := (statusKeys_eq_flags k).mp h1
        exact Or.inr ⟨g, hmemg g, hg⟩

theorem interpretEntry_err (c : ReportCategory) (r : Record) (e : PyErr)
    (h : interpretEntry c r = .error e) : catchesOf c e = false := by
  simp only [interpretEntry, bind, Except.bind] at h
  split at h
  · next eA hA =>
      cases h
      exact (groupStep_err c .amounts r e hA).1
  · next r1 hA =>
      split at h
      · next eD hD =>
          cases h
          exact (groupStep_err c .dates r1 e hD).1
      · next r2 hD =>
          exact (groupStep_err c .booleans r2 e h).1

theorem interpretEntry_no_valueError (c : ReportCategory) (r : Record)
    (m : String) : interpretEntry c r ≠ .error (.valueError m) := by
  intro h
  have := interpretEntry_err c r (.valueError m) h
  rw [catches_valueError c m] at this
  cases this

theorem readParsed_present_err (r : Record) (g : FieldGroup)
    (fs : List String) (hpres : ∀ k ∈ fs, (lookupKey r k).isSome)
    (e : PyErr) (h : readParsed r g fs = .error e) :
    (∃ m, e = .valueError m) ∨ (∃ m, e = .typeError m) ∨
      (∃ m, e = .attributeError m) := by
  induction fs with
  | nil => simp only [readParsed] at h; cases h
  | cons k rest ih =>
      simp only [readParsed] at h
      split at h
      · next hget =>
          have := hpres k (List.mem_cons_self k rest)
          obtain ⟨v, hv⟩ := Option.isSome_iff_exists.mp this
          simp [dictGet, hv] at hget
      · next v hget =>
          split at h
          · next hpe =>
              cases h
              exact groupParse_err g v e hpe
          · split at h
            · next hre =>
                cases h
                exact ih (fun k2 hk2 => hpres k2 (List.mem_cons_of_mem k hk2))
                  hre
            · cases h

theorem groupStep_contribution_ok (g : FieldGroup) (r : Record)
    (hpres : ∀ k ∈ groupFields .contribution g, (lookupKey r k).isSome) :
    ∃ r2, groupStep .contribution g r = .ok r2 := by
  cases hrp : readParsed r g (groupFields .contribution g) with
  | ok ps =>
      exact ⟨writeAll (setKey r (flagKey g) (Value.bool true)) ps,
        by simp [groupStep, hrp]⟩
  | error e =>
      have hcls := readParsed_present_err r g _ hpres e hrp
      have hc : catchesOf .contribution e = true := by
        rcases hcls with ⟨m, hm⟩ | ⟨m, hm⟩ | ⟨m, hm⟩ <;> subst hm <;> rfl
      exact ⟨setKey r (flagKey g) (Value.bool false),
        by simp [groupStep, hrp, hc]⟩

theorem groupStep_keys_mono (c : ReportCategory) (g : FieldGroup)
    (r r2 : Record) (h : groupStep c g r = .ok r2) (k : String)
    (hk : k ∈ recKeys r) : k ∈ recKeys r2 := by
  simp only [groupStep] at h
  split at h
  · cases h
    rw [mem_recKeys_writeAll, mem_recKeys_setKey]
    exact Or.inl (Or.inl hk)
  · split at h
    · cases h
      rw [mem_recKeys_setKey]
      exact Or.inl hk
    · cases h

theorem interpret_contribution_ok_of_present (r : Record)
    (hp : allPresent .contribution r = true) :
    ∃ out, interpret_contribution_entry r = .ok out := by
  have hpres : ∀ k ∈ expectedFields .contribution, (lookupKey r k).isSome :=
    fun k hk => by simpa using (List.all_eq_true.mp hp) k hk
  have hpg : ∀ g, ∀ k ∈ groupFields .contribution g,
      (lookupKey r k).isSome :=
    fun g k hk => hpres k (mem_expectedFields .contribution g k hk)
  obtain ⟨r1, h1⟩ := groupStep_contribution_ok .amounts r (hpg .amounts)
  have hpg1 : ∀ k ∈ groupFields .contribution .dates,
      (lookupKey r1 k).isSome := by
    intro k hk
    rw [← mem_recKeys_iff]
    refine groupStep_keys_mono _ _ _ _ h1 k ?_
    rw [mem_recKeys_iff]
    exact hpg .dates k hk
  obtain ⟨r2, h2⟩ := groupStep_contribution_ok .dates r1 hpg1
  have hpg2 : ∀ k ∈ groupFields .contribution .booleans,
      (lookupKey r2 k).isSome := by
    intro k hk
    rw [← mem_recKeys_iff]
    refine groupStep_keys_mono _ _ _ _ h2 k ?_
    refine groupStep_keys_mono _ _ _ _ h1 k ?_
    rw [mem_recKeys_iff]
    exact hpg .booleans k hk
  obtain ⟨r3, h3⟩ := groupStep_contribution_ok .booleans r2 hpg2
  refine ⟨r3, ?_⟩
  simp [interpret_contribution_entry, interpretEntry, bind, Except.bind,
    h1, h2, h3]

theorem pyMap_ok_of_all (f : Record → Except PyErr Record)
    (xs : List Record) (h : ∀ x ∈ xs, ∃ y, f x = .ok y) :
    ∃ out, pyMap f xs = .ok out ∧ out.length = xs.length ∧
      ∀ i (hi : i < xs.length), ∃ hi2 : i < out.length,
        f (xs.get ⟨i, hi⟩) = .ok (out.get ⟨i, hi2⟩) := by
  induction xs with
  | nil => exact ⟨[], rfl, rfl, fun i hi => absurd hi (by simp)⟩
  | cons x xs ih =>
      obtain ⟨y, hy⟩ := h x (List.mem_cons_self x xs)
      obtain ⟨out, hout, hlen, hidx⟩ :=
        ih (fun x2 hx2 => h x2 (List.mem_cons_of_mem x hx2))
      refine ⟨y :: out, ?_, by simp [hlen], ?_⟩
      · simp [pyMap, bind, Except.bind, hy, hout]
      · intro i hi
        cases i with
        | zero => exact ⟨by simp, by simpa using hy⟩
        | succ n =>
            have hn : n < xs.length := by simpa using hi
            obtain ⟨hn2, hfn⟩ := hidx n hn
            exact ⟨by simpa using hn2, by simpa using hfn⟩

theorem pyMap_err (f : Record → Except PyErr Record) (xs : List Record)
    (e : PyErr) (h : pyMap f xs = .error e) : ∃ x ∈ xs, f x = .error e := by
  induction xs with
  | nil => simp only [pyMap] at h; cases h
  | cons x xs ih =>
      simp only [pyMap, bind, Except.bind] at h
      cases hx : f x with
      | error e2 =>
          rw [hx] at h
          cases h
          exact ⟨x, List.mem_cons_self x xs, hx⟩
      | ok y =>
          rw [hx] at h
          cases ht : pyMap f xs with
          | error e2 =>
              rw [ht] at h
              cases h
              obtain ⟨x2, hx2, hfx2⟩ := ih ht
              exact ⟨x2, List.mem_cons_of_mem x hx2, hfx2⟩
          | ok out => rw [ht] at h; cases h

/-- C2 (amended): for every report category and every record whose
expected fields are all present with string values, each field group
(amounts, dates, booleans) is converted all or nothing: if the group's
body succeeds, every field of the group is replaced by its parsed typed
value and the group's status flag is set to true; if it fails, every field
of the group keeps its original value and the flag is set to false.  (As
stated over all records the claim is refuted by the counterexample: a
missing field aborts the record-level operation with KeyError instead of
setting the flag to false.) -/
theorem claim_group_all_or_nothing (c : ReportCategory) (r : Record)
    (hs : stringValued r = true) (hp : allPresent c r = true) :
    ∃ out, interpretEntry c r = .ok out ∧
      ∀ g, (groupSucceeds c g r = true →
          lookupKey out (flagKey g) = some (.bool true) ∧
          ∀ k ∈ groupFields c g, ∃ v v2, lookupKey r k = some v ∧
            groupParse g v = .ok v2 ∧ lookupKey out k = some v2) ∧
        (groupSucceeds c g r = false →
          lookupKey out (flagKey g) = some (.bool false) ∧
          ∀ k ∈ groupFields c g, lookupKey out k = lookupKey r k) := by
  obtain ⟨out, hout, hgroups, _, _⟩ := interpretEntry_spec c r hs hp
  refine ⟨out, hout, fun g => ⟨fun hsucc => ⟨?_, (hgroups g).2.1 hsucc⟩,
    fun hfail => ⟨?_, (hgroups g).2.2 hfail⟩⟩⟩
  · rw [(hgroups g).1, hsucc]
  · rw [(hgroups g).1, hfail]

/-- C2 counterexample: on a contribution record with the FiledDate field
absent, the dates group does not set its flag to false and keep the fields;
the record-level operation instead raises KeyError and returns no record. -/
theorem claim_group_all_or_nothing_cex :
    interpret_contribution_entry recContribMissingFiled =
      .error (.keyError "FiledDate") ∧
    ¬ ∃ out, interpret_contribution_entry recContribMissingFiled = .ok out ∧
        lookupKey out "DatesInterpreted" = some (.bool false) := by
  constructor
  · rfl
  · rintro ⟨out, hout, _⟩
    rw [show interpret_contribution_entry recContribMissingFiled =
      .error (.keyError "FiledDate") from rfl] at hout
    cases hout

/-- C2 witness: the amended theorem applied to a concrete well-formed
contribution record. -/
theorem claim_group_all_or_nothing_witness :
    stringValued recContribOk = true ∧
    allPresent .contribution recContribOk = true ∧
    (∃ out, interpretEntry .contribution recContribOk = .ok out ∧
      ∀ g, (groupSucceeds .contribution g recContribOk = true →
          lookupKey out (flagKey g) = some (.bool true) ∧
          ∀ k ∈ groupFields .contribution g, ∃ v v2,
            lookupKey recContribOk k = some v ∧
            groupParse g v = .ok v2 ∧ lookupKey out k = some v2) ∧
        (groupSucceeds .contribution g recContribOk = false →
          lookupKey out (flagKey g) = some (.bool false) ∧
          ∀ k ∈ groupFields .contribution g,
            lookupKey out k = lookupKey recContribOk k)) :=
  ⟨by decide, by decide,
    claim_group_all_or_nothing .contribution recContribOk
      (by decide) (by decide)⟩

/-- C3 (amended): for every category and every record whose expected
fields are all present with string values, interpretation yields exactly
one output record whose key set is exactly the record's keys plus the
three status keys; no key is removed; and an output record is produced
even when every group's parse fails.  (As stated over all records the
claim is refuted by the counterexample: a record lacking expected fields
yields no output record at all.) -/
theorem claim_keys_preserved (c : ReportCategory) (r : Record)
    (hs : stringValued r = true) (hp : allPresent c r = true) :
    ∃ out, interpretEntry c r = .ok out ∧
      (∀ k ∈ recKeys r, k ∈ recKeys out) ∧
      (∀ k, k ∈ recKeys out ↔ k ∈ recKeys r ∨ k ∈ statusKeys) := by
  obtain ⟨out, hout, _, _, hkeys⟩ := interpretEntry_spec c r hs hp
  exact ⟨out, hout, fun k hk => (hkeys k).mpr (Or.inl hk), hkeys⟩

/-- C3 counterexample: a record without the expected contribution fields
produces no output record; the operation raises KeyError. -/
theorem claim_keys_preserved_cex :
    interpret_contribution_entry recOtherOnly =
      .error (.keyError "ContributionAmount") ∧
    ¬ ∃ out, interpret_contribution_entry recOtherOnly = .ok out := by
  constructor
  · rfl
  · rintro ⟨out, hout⟩
    rw [show interpret_contribution_entry recOtherOnly =
      .error (.keyError "ContributionAmount") from rfl] at hout
    cases hout

/-- C3 witness: the amended theorem applied to a concrete record on which
the amounts and dates groups both fail to parse but all fields are
present. -/
theorem claim_keys_preserved_witness :
    stringValued recContribBad = true ∧
    allPresent .contribution recContribBad = true ∧
    (∃ out, interpretEntry .contribution recContribBad = .ok out ∧
      (∀ k ∈ recKeys recContribBad, k ∈ recKeys out) ∧
      (∀ k, k ∈ recKeys out ↔ k ∈ recKeys recContribBad ∨
        k ∈ statusKeys)) :=
  ⟨by decide, by decide,
    claim_keys_preserved .contribution recContribBad (by decide) (by decide)⟩

theorem spec_determines (c : ReportCategory) (r out1 out2 : Record)
    (hflag1 : ∀ g, lookupKey out1 (flagKey g) =
      some (.bool (groupSucceeds c g r)))
    (hsucc1 : ∀ g, groupSucceeds c g r = true → ∀ k ∈ groupFields c g,
      ∃ v v2, lookupKey r k = some v ∧ groupParse g v = .ok v2 ∧
        lookupKey out1 k = some v2)
    (hfail1 : ∀ g, groupSucceeds c g r = false → ∀ k ∈ groupFields c g,
      lookupKey out1 k = lookupKey r k)
    (hother1 : ∀ k, (∀ g, k ≠ flagKey g ∧ k ∉ groupFields c g) →
      lookupKey out1 k = lookupKey r k)
    (hflag2 : ∀ g, lookupKey out2 (flagKey g) =
      some (.bool (groupSucceeds c g r)))
    (hsucc2 : ∀ g, groupSucceeds c g r = true → ∀ k ∈ groupFields c g,
      ∃ v v2, lookupKey r k = some v ∧ groupParse g v = .ok v2 ∧
        lookupKey out2 k = some v2)
    (hfail2 : ∀ g, groupSucceeds c g r = false → ∀ k ∈ groupFields c g,
      lookupKey out2 k = lookupKey r k)
    (hother2 : ∀ k, (∀ g, k ≠ flagKey g ∧ k ∉ groupFields c g) →
      lookupKey out2 k = lookupKey r k) :
    recordEquiv out1 out2 := by
  intro k
  by_cases hf : ∃ g, k = flagKey g
  · obtain ⟨g, hg⟩ := hf
    subst hg
    rw [hflag1 g, hflag2 g]
  · by_cases hfield : ∃ g, k ∈ groupFields c g
    · obtain ⟨g, hk⟩ := hfield
      cases hsg : groupSucceeds c g r with
      | true =>
          obtain ⟨v, v2, hv, hp, hl1⟩ := hsucc1 g hsg k hk
          obtain ⟨w, w2, hw, hq, hl2⟩ := hsucc2 g hsg k hk
          rw [hv] at hw
          cases hw
          rw [hp] at hq
          cases hq
          rw [hl1, hl2]
      | false =>
          rw [hfail1 g hsg k hk, hfail2 g hsg k hk]
    · push_neg at hf hfield
      rw [hother1 k (fun g => ⟨hf g, hfield g⟩),
        hother2 k (fun g => ⟨hf g, hfield g⟩)]

/-- C9: for every category and every record whose expected fields are all
present with string values, the three group transactions are independent:
the field sets of distinct groups are pairwise disjoint, each group's
status flag is a function of the original record alone (so the outcome of
one group never changes another group's flag or fields), and executing the
three group try blocks in any order produces the same record (as a dict). -/
theorem claim_groups_independent (c : ReportCategory) (r : Record)
    (hs : stringValued r = true) (hp : allPresent c r = true) :
    (∀ g1 g2, g1 ≠ g2 → ∀ k ∈ groupFields c g1, k ∉ groupFields c g2) ∧
    ∃ out, interpretEntry c r = .ok out ∧
      (∀ g, lookupKey out (flagKey g) = some (.bool (groupSucceeds c g r))) ∧
      (∀ gs : List FieldGroup,
        gs.Perm [FieldGroup.amounts, FieldGroup.dates, FieldGroup.booleans] →
        ∃ out2, runSeq c gs r = .ok out2 ∧ recordEquiv out2 out) := by
  have hstr := str_fields_of_hyps c r hs hp
  obtain ⟨out, hout, hgroups, hother, _⟩ := interpretEntry_spec c r hs hp
  refine ⟨fun g1 g2 => groupFields_disjoint c g1 g2, out, hout,
    fun g => (hgroups g).1, ?_⟩
  intro gs hperm
  have hnd : gs.Nodup := hperm.nodup_iff.mpr (by decide)
  have hmem : ∀ g : FieldGroup, g ∈ gs := by
    intro g
    rw [hperm.mem_iff]
    cases g <;> simp
  obtain ⟨out2, hout2, hgroups2, hother2, _⟩ :=
    runSeq_spec c gs hnd r (fun g _ => hstr g)
  refine ⟨out2, hout2, ?_⟩
  exact spec_determines c r out2 out
    (fun g => (hgroups2 g (hmem g)).1)
    (fun g => (hgroups2 g (hmem g)).2.1)
    (fun g => (hgroups2 g (hmem g)).2.2)
    (fun k hk => hother2 k (fun g _ => hk g))
    (fun g => (hgroups g).1)
    (fun g => (hgroups g).2.1)
    (fun g => (hgroups g).2.2)
    (fun k hk => hother k
      (fun hh => by
        obtain ⟨g, hg⟩ := (statusKeys_eq_flags k).mp hh
        exact (hk g).1 hg)
      (fun hh => by
        rcases List.mem_append.mp hh with h1 | h1
        · rcases List.mem_append.mp h1 with h2 | h2
          · exact (hk .amounts).2 h2
          · exact (hk .dates).2 h2
        · exact (hk .booleans).2 h1))

/-- C9 witness: the independence theorem applied to a concrete record,
with the reversed evaluation order as a sample permutation. -/
theorem claim_groups_independent_witness :
    stringValued recContribBad = true ∧
    allPresent .contribution recContribBad = true ∧
    ((∀ g1 g2, g1 ≠ g2 → ∀ k ∈ groupFields .contribution g1,
        k ∉ groupFields .contribution g2) ∧
      ∃ out, interpretEntry .contribution recContribBad = .ok out ∧
        (∀ g, lookupKey out (flagKey g) =
          some (.bool (groupSucceeds .contribution g recContribBad))) ∧
        (∀ gs : List FieldGroup,
          gs.Perm [FieldGroup.amounts, FieldGroup.dates,
            FieldGroup.booleans] →
          ∃ out2, runSeq .contribution gs recContribBad = .ok out2 ∧
            recordEquiv out2 out)) :=
  ⟨by decide, by decide,
    claim_groups_independent .contribution recContribBad
      (by decide) (by decide)⟩

theorem interpretData_eq_pyMap (c : ReportCategory) :
    interpretData c = pyMap (interpretEntry c) := by
  cases c <;> rfl

theorem interpretData_no_valueError (c : ReportCategory) (rs : List Record)
    (m : String) : interpretData c rs ≠ .error (.valueError m) := by
  intro h
  rw [interpretData_eq_pyMap] at h
  obtain ⟨x, _, hfx⟩ := pyMap_err (interpretEntry c) rs _ h
  exact interpretEntry_no_valueError c x m hfx

/-- C5 (amended): for every category, the batch interpreter maps the
record-level interpreter over the input sequence: whenever every record of
the sequence interprets to a result, the batch produces exactly one output
per input, in input order, with position i holding the interpretation of
input position i.  (As stated over all sequences the claim is refuted by
the counterexample: the eager map propagates a record-level exception, so
a batch containing a record that raises produces no output sequence at
all.) -/
theorem claim_batch_pointwise (c : ReportCategory) (entries : List Record)
    (h : ∀ r ∈ entries, ∃ out, interpretEntry c r = .ok out) :
    ∃ outs, interpretData c entries = .ok outs ∧
      outs.length = entries.length ∧
      ∀ i (hi : i < entries.length), ∃ hi2 : i < outs.length,
        interpretEntry c (entries.get ⟨i, hi⟩) = .ok (outs.get ⟨i, hi2⟩) := by
  rw [interpretData_eq_pyMap]
  exact pyMap_ok_of_all (interpretEntry c) entries h

/-- C5 witness: the batch theorem applied to a concrete two-record input. -/
theorem claim_batch_pointwise_witness :
    (∀ r ∈ [recContribOk, recContribBad],
      ∃ out, interpretEntry .contribution r = .ok out) ∧
    (∃ outs, interpretData .contribution [recContribOk, recContribBad] =
        .ok outs ∧
      outs.length = ([recContribOk, recContribBad] : List Record).length ∧
      ∀ i (hi : i < ([recContribOk, recContribBad] : List Record).length),
        ∃ hi2 : i < outs.length,
          interpretEntry .contribution
            (([recContribOk, recContribBad] : List Record).get ⟨i, hi⟩) =
            .ok (outs.get ⟨i, hi2⟩)) := by
  have hyp : ∀ r ∈ [recContribOk, recContribBad],
      ∃ out, interpretEntry .contribution r = .ok out := by
    intro r hr
    rcases List.mem_cons.mp hr with h1 | h1
    · subst h1
      exact ⟨_, rfl⟩
    · have h2 := List.mem_singleton.mp h1
      subst h2
      exact ⟨_, rfl⟩
  exact ⟨hyp, claim_batch_pointwise .contribution [recContribOk, recContribBad] hyp⟩

/-- C5 counterexample: a batch whose second record lacks the expected
contribution fields yields no output sequence at all: the eager map over
the records propagates the record-level KeyError, so the batch does not
produce one output per input. -/
theorem claim_batch_pointwise_cex :
    interpret_contributions_data [recContribOk, recOtherOnly] =
      .error (.keyError "ContributionAmount") ∧
    ¬ ∃ outs, interpret_contributions_data [recContribOk, recOtherOnly] =
        .ok outs := by
  constructor
  · rfl
  · rintro ⟨outs, houts⟩
    rw [show interpret_contributions_data [recContribOk, recOtherOnly] =
      .error (.keyError "ContributionAmount") from rfl] at houts
    cases houts

/-- C4: the orchestrator raises the unrecognized-report-type ValueError
exactly when the report type is not one of the three recognized variants;
for a recognized type it hands the rows to that type's batch interpreter
(whose own failures are never this ValueError). -/
theorem claim_dispatch_iff (report_type : String) (raw : List Record) :
    ((∃ m, get_report_interpreted raw report_type =
        .error (.valueError m)) ↔
      is_valid_report_type report_type = false) ∧
    (report_type = REPORT_CONTRIB_DATA →
      get_report_interpreted raw report_type =
        interpret_contributions_data raw) ∧
    (report_type = REPORT_EXPEND_DATA →
      get_report_interpreted raw report_type =
        interpret_expenditure_data raw) ∧
    (report_type = REPORT_LOAN_DATA →
      get_report_interpreted raw report_type = interpret_loan_data raw) := by
  by_cases hv : is_valid_report_type report_type = true
  · have hmem : report_type = REPORT_CONTRIB_DATA ∨
        report_type = REPORT_EXPEND_DATA ∨
        report_type = REPORT_LOAN_DATA := by
      have : report_type ∈ REPORT_TYPES := by
        simpa [is_valid_report_type, List.contains_iff_exists_mem_beq,
          beq_iff_eq] using hv
      simpa [REPORT_TYPES] using this
    rcases hmem with h | h | h <;> subst h
    · refine ⟨⟨?_, ?_⟩, fun _ => rfl, fun h2 => absurd h2 (by decide),
        fun h2 => absurd h2 (by decide)⟩
      · rintro ⟨m, hm⟩
        rw [show get_report_interpreted raw REPORT_CONTRIB_DATA =
          interpret_contributions_data raw from rfl] at hm
        exact absurd hm (interpretData_no_valueError .contribution raw m)
      · intro hfalse
        rw [hv] at hfalse
        cases hfalse
    · refine ⟨⟨?_, ?_⟩, fun h2 => absurd h2 (by decide), fun _ => rfl,
        fun h2 => absurd h2 (by decide)⟩
      · rintro ⟨m, hm⟩
        rw [show get_report_interpreted raw REPORT_EXPEND_DATA =
          interpret_expenditure_data raw from rfl] at hm
        exact absurd hm (interpretData_no_valueError .expenditure raw m)
      · intro hfalse
        rw [hv] at hfalse
        cases hfalse
    · refine ⟨⟨?_, ?_⟩, fun h2 => absurd h2 (by decide),
        fun h2 => absurd h2 (by decide), fun _ => rfl⟩
      · rintro ⟨m, hm⟩
        rw [show get_report_interpreted raw REPORT_LOAN_DATA =
          interpret_loan_data raw from rfl] at hm
        exact absurd hm (interpretData_no_valueError .loan raw m)
      · intro hfalse
        rw [hv] at hfalse
        cases hfalse
  · have hvf : is_valid_report_type report_type = false :=
      Bool.not_eq_true _ ▸ (by simpa using hv)
    have heval : get_report_interpreted raw report_type =
        .error (.valueError (report_type ++ " is not a valid report type.")) := by
      simp [get_report_interpreted, hvf]
    refine ⟨⟨fun _ => hvf, fun _ => ⟨_, heval⟩⟩, ?_, ?_, ?_⟩ <;>
      (intro h2; subst h2; rw [show is_valid_report_type _ = true from by decide] at hvf; cases hvf)

/-- C4 witness: the dispatch theorem instantiated at a recognized report
type and at an unrecognized one. -/
theorem claim_dispatch_iff_witness :
    ((∃ m, get_report_interpreted [] REPORT_CONTRIB_DATA =
        .error (.valueError m)) ↔
      is_valid_report_type REPORT_CONTRIB_DATA = false) ∧
    ((∃ m, get_report_interpreted [] "bogus" =
        .error (.valueError m)) ↔
      is_valid_report_type "bogus" = false) :=
  ⟨(claim_dispatch_iff REPORT_CONTRIB_DATA []).1,
    (claim_dispatch_iff "bogus" []).1⟩

/-- C10: update_entry can never complete: for a recognized report type the
strategy call's keyword arguments name the unbound identifiers reassign_id
and force_copy, so the call raises NameError before the selected strategy
(and hence any upsert) runs; for an unrecognized type it raises ValueError;
in no case does it return an upsert. -/
theorem claim_update_entry_never_succeeds :
    (∀ (entry : Record) (report_type : String),
      is_valid_report_type report_type = true →
      update_entry entry report_type =
        .error (.nameError "name reassign_id is not defined")) ∧
    (∀ (entry : Record) (report_type : String) (op : DbOp),
      update_entry entry report_type ≠ .ok op) := by
  constructor
  · intro entry report_type hv
    have hmem : report_type = REPORT_CONTRIB_DATA ∨
        report_type = REPORT_EXPEND_DATA ∨
        report_type = REPORT_LOAN_DATA := by
      have : report_type ∈ REPORT_TYPES := by
        simpa [is_valid_report_type, List.contains_iff_exists_mem_beq,
          beq_iff_eq] using hv
      simpa [REPORT_TYPES] using this
    rcases hmem with h | h | h <;> subst h <;> rfl
  · intro entry report_type op h
    simp only [update_entry] at h
    split at h
    · cases h
    · next strategy hstrat =>
        have hload : loadName update_entry_scope "reassign_id" =
            .error (.nameError "name reassign_id is not defined") := rfl
        rw [hload] at h
        simp only [bind, Except.bind] at h
        cases h

/-- C10 witness: the theorem applied to a concrete entry and recognized
report type. -/
theorem claim_update_entry_never_succeeds_witness :
    is_valid_report_type REPORT_CONTRIB_DATA = true ∧
    update_entry recContribOk REPORT_CONTRIB_DATA =
      .error (.nameError "name reassign_id is not defined") :=
  ⟨by decide,
    claim_update_entry_never_succeeds.1 recContribOk REPORT_CONTRIB_DATA
      (by decide)⟩

/-- C1 (amended): the record-level interpret operation can raise.  A
missing expected field raises KeyError in every category (shown on the
empty record, where the first amount field is reported); a non-string
field value raises TypeError out of the loan (and expenditure)
interpreters, whose except clauses cover only ValueError; only when every
expected field is present does the contribution interpreter never raise
(its except clauses also cover TypeError and AttributeError), and when
every expected field is present with a string value no category's
interpreter raises. -/
theorem claim_interpret_raises (c : ReportCategory) (r : Record) :
    (stringValued r = true → allPresent c r = true →
      ∃ out, interpretEntry c r = .ok out) ∧
    (allPresent .contribution r = true →
      ∃ out, interpret_contribution_entry r = .ok out) ∧
    (interpretEntry .contribution [] = .error (.keyError "ContributionAmount") ∧
      interpretEntry .expenditure [] = .error (.keyError "ExpenditureAmount") ∧
      interpretEntry .loan [] = .error (.keyError "PaymentAmount")) ∧
    interpret_loan_entry recLoanNone =
      .error (.typeError "float() argument must be a string or a number") := by
  refine ⟨?_, interpret_contribution_ok_of_present r, ⟨rfl, rfl, rfl⟩, rfl⟩
  intro hs hp
  obtain ⟨out, hout, _, _, _⟩ := interpretEntry_spec c r hs hp
  exact ⟨out, hout⟩

/-- C1 counterexample: an expenditure record with every expected field
present whose amount is the Python None value makes the record-level
operation raise TypeError instead of setting the amounts flag to false,
so failure handling is not uniform across the three categories and the
operation does not always return a record. -/
theorem claim_interpret_raises_cex :
    interpret_expenditure_entry recExpendNone =
      .error (.typeError "float() argument must be a string or a number") ∧
    ¬ ∃ out, interpret_expenditure_entry recExpendNone = .ok out := by
  constructor
  · rfl
  · rintro ⟨out, hout⟩
    rw [show interpret_expenditure_entry recExpendNone =
      .error (.typeError "float() argument must be a string or a number")
      from rfl] at hout
    cases hout

/-- C1 witness: the amended theorem applied to a concrete record with all
fields present as strings and to a contribution record with all fields
present holding None. -/
theorem claim_interpret_raises_witness :
    stringValued recContribOk = true ∧
    allPresent .contribution recContribOk = true ∧
    (∃ out, interpretEntry .contribution recContribOk = .ok out) ∧
    allPresent .contribution recContribNoneVals = true ∧
    (∃ out, interpret_contribution_entry recContribNoneVals = .ok out) :=
  ⟨by decide, by decide,
    (claim_interpret_raises .contribution recContribOk).1 (by decide)
      (by decide),
    by decide,
    (claim_interpret_raises .contribution recContribNoneVals).2.1
      (by decide)⟩

theorem ofNat_add32_eq_n (k : Nat) (h1 : 65 ≤ k) (h2 : k ≤ 90) :
    (Char.ofNat (k + 32) = 'n') ↔ k = 78 := by
  interval_cases k <;> simp

theorem ofNat_add32_eq_y (k : Nat) (h1 : 65 ≤ k) (h2 : k ≤ 90) :
    (Char.ofNat (k + 32) = 'y') ↔ k = 89 := by
  interval_cases k <;> simp

theorem lowerChar_eq_n (c : Char) (h : lowerChar c = 'n') :
    c = 'n' ∨ c = 'N' := by
  by_cases hA : 65 ≤ c.toNat ∧ c.toNat ≤ 90
  · right
    rw [lowerChar, if_pos hA] at h
    have hk : c.toNat = 78 := (ofNat_add32_eq_n c.toNat hA.1 hA.2).mp h
    rw [← Char.ofNat_toNat c, hk]
  · left
    rw [lowerChar, if_neg hA] at h
    exact h

theorem lowerChar_eq_y (c : Char) (h : lowerChar c = 'y') :
    c = 'y' ∨ c = 'Y' := by
  by_cases hA : 65 ≤ c.toNat ∧ c.toNat ≤ 90
  · right
    rw [lowerChar, if_pos hA] at h
    have hk : c.toNat = 89 := (ofNat_add32_eq_y c.toNat hA.1 hA.2).mp h
    rw [← Char.ofNat_toNat c, hk]
  · left
    rw [lowerChar, if_neg hA] at h
    exact h

theorem lowerStr_eq_n (s : String) (h : lowerStr s = "n") :
    s = "n" ∨ s = "N" := by
  have hd : s.data.map lowerChar = ['n'] := congrArg String.data h
  cases hs : s.data with
  | nil => rw [hs] at hd; cases hd
  | cons a t =>
      rw [hs] at hd
      simp only [List.map_cons] at hd
      injection hd with h1 h2
      have ht : t = [] := List.map_eq_nil_iff.mp h2
      subst ht
      have hsa : s = ⟨[a]⟩ := by
        cases s
        simp_all
      rcases lowerChar_eq_n a h1 with h3 | h3 <;> subst h3
      · exact Or.inl hsa
      · exact Or.inr hsa

theorem lowerStr_eq_y (s : String) (h : lowerStr s = "y") :
    s = "y" ∨ s = "Y" := by
  have hd : s.data.map lowerChar = ['y'] := congrArg String.data h
  cases hs : s.data with
  | nil => rw [hs] at hd; cases hd
  | cons a t =>
      rw [hs] at hd
      simp only [List.map_cons] at hd
      injection hd with h1 h2
      have ht : t = [] := List.map_eq_nil_iff.mp h2
      subst ht
      have hsa : s = ⟨[a]⟩ := by
        cases s
        simp_all
      rcases lowerChar_eq_y a h1 with h3 | h3 <;> subst h3
      · exact Or.inl hsa
      · exact Or.inr hsa

/-- C8: parse_yes_no maps any casing of Y to true and any casing of N to
false, and fails on every other input: any other string raises ValueError
and any non-string value raises AttributeError (the conversion-failure
classes the interpreters treat as group failure). -/
theorem claim_parse_yes_no :
    parse_yes_no_str (.str "Y") = .ok true ∧
    parse_yes_no_str (.str "y") = .ok true ∧
    parse_yes_no_str (.str "N") = .ok false ∧
    parse_yes_no_str (.str "n") = .ok false ∧
    (∀ s : String, s ≠ "Y" → s ≠ "y" → s ≠ "N" → s ≠ "n" →
      ∃ m, parse_yes_no_str (.str s) = .error (.valueError m)) ∧
    (∀ v : Value, v.isStr = false →
      ∃ m, parse_yes_no_str v = .error (.attributeError m)) ∧
    (∃ m, parse_yes_no_str (.str "yes") = .error (.valueError m)) ∧
    (∃ m, parse_yes_no_str (.str "") = .error (.valueError m)) := by
  refine ⟨rfl, rfl, rfl, rfl, ?_, ?_, ⟨_, rfl⟩, ⟨_, rfl⟩⟩
  · intro s hY hy hN hn
    by_cases h1 : lowerStr s = "n"
    · rcases lowerStr_eq_n s h1 with h2 | h2
      · exact absurd h2 hn
      · exact absurd h2 hN
    · by_cases h2 : lowerStr s = "y"
      · rcases lowerStr_eq_y s h2 with h3 | h3
        · exact absurd h3 hy
        · exact absurd h3 hY
      · refine ⟨s ++ " not a valid boolean string.", ?_⟩
        simp only [parse_yes_no_str, if_neg h1, if_neg h2]
  · intro v hv
    cases v with
    | str s => simp [Value.isStr] at hv
    | num f => exact ⟨_, rfl⟩
    | date d => exact ⟨_, rfl⟩
    | bool b => exact ⟨_, rfl⟩
    | none => exact ⟨_, rfl⟩

/-- C8 witness: the failure clauses applied to the inputs named by the
claim. -/
theorem claim_parse_yes_no_witness :
    (∃ m, parse_yes_no_str (.str "maybe") = .error (.valueError m)) ∧
    (∃ m, parse_yes_no_str Value.none = .error (.attributeError m)) :=
  ⟨claim_parse_yes_no.2.2.2.2.1 "maybe" (by decide) (by decide) (by decide)
      (by decide),
    claim_parse_yes_no.2.2.2.2.2.1 Value.none (by decide)⟩

/-- C7: parse_amount (the float builtin applied to a record field) returns
the numeric value of a decimal-number string, and fails exactly with the
conversion-error classes otherwise: ValueError on an unparseable string
(including the empty string and non-numeric text) and TypeError on a
non-numeric non-string value such as None; no other outcome is possible
on a string. -/
theorem claim_parse_amount :
    pyFloat (.str "100") = .ok (.finite 100) ∧
    (∃ m, pyFloat (.str "") = .error (.valueError m)) ∧
    (∃ m, pyFloat (.str "not-a-number") = .error (.valueError m)) ∧
    (∃ m, pyFloat Value.none = .error (.typeError m)) ∧
    (∀ s : String, (∃ f, pyFloat (.str s) = .ok f) ∨
      ∃ m, pyFloat (.str s) = .error (.valueError m)) ∧
    (∀ v : Value, (∃ f, pyFloat v = .ok f) ∨
      (∃ m, pyFloat v = .error (.valueError m)) ∨
      (∃ m, pyFloat v = .error (.typeError m))) := by
  have hstr : ∀ s : String, (∃ f, pyFloat (.str s) = .ok f) ∨
      ∃ m, pyFloat (.str s) = .error (.valueError m) := by
    intro s
    cases hp : parseFloatStr s with
    | some f => exact Or.inl ⟨f, by simp [pyFloat, hp]⟩
    | none =>
        exact Or.inr ⟨"could not convert string to float: " ++ s,
          by simp [pyFloat, hp]⟩
  have hstep : parseFloatStr "100" =
      some (.finite (((100 : Nat) : ℚ) + 0)) := rfl
  have h100 : parseFloatStr "100" = some (PyFloat.finite 100) := by
    rw [hstep]
    norm_num
  refine ⟨by simp [pyFloat, h100], ⟨_, rfl⟩, ⟨_, rfl⟩, ⟨_, rfl⟩, hstr, ?_⟩
  intro v
  cases v with
  | str s =>
      rcases hstr s with h | h
      · exact Or.inl h
      · exact Or.inr (Or.inl h)
  | num f => exact Or.inl ⟨f, rfl⟩
  | bool b => exact Or.inl ⟨_, rfl⟩
  | date d => exact Or.inr (Or.inr ⟨_, rfl⟩)
  | none => exact Or.inr (Or.inr ⟨_, rfl⟩)

theorem dc_isDigit (k : Nat) (hk : k ≤ 9) :
    (Char.ofNat (48 + k)).isDigit = true := by
  interval_cases k <;> decide

theorem dc_toNat (k : Nat) (hk : k ≤ 9) :
    (Char.ofNat (48 + k)).toNat = 48 + k := by
  interval_cases k <;> decide

theorem dc_not_space (k : Nat) (hk : k ≤ 9) :
    isPySpace (Char.ofNat (48 + k)) = false := by
  interval_cases k <;> decide

theorem parse4digits_pad4 (y : Nat) (hy : y ≤ 9999) (rest : List Char) :
    parse4digits (pad4 y ++ rest) = some (y, rest) := by
  have h1 : y / 1000 ≤ 9 := by omega
  have h2 : y / 100 % 10 ≤ 9 := by omega
  have h3 : y / 10 % 10 ≤ 9 := by omega
  have h4 : y % 10 ≤ 9 := by omega
  simp only [pad4, List.cons_append, List.nil_append, parse4digits,
    dc_isDigit _ h1, dc_isDigit _ h2, dc_isDigit _ h3, dc_isDigit _ h4,
    dc_toNat _ h1, dc_toNat _ h2, dc_toNat _ h3, dc_toNat _ h4,
    Bool.and_self, if_true]
  have hv : (((48 + y / 1000 - 48) * 10 + (48 + y / 100 % 10 - 48)) * 10 +
      (48 + y / 10 % 10 - 48)) * 10 + (48 + y % 10 - 48) = y := by omega
  rw [hv]

theorem parse2or1_pad2 (low high2 n : Nat) (hn : n ≤ 99) (hlo : low ≤ n)
    (hhi : n ≤ high2) (rest : List Char) :
    parse2or1 low high2 (pad2 n ++ rest) = some (n, rest) := by
  have h1 : n / 10 ≤ 9 := by omega
  have h2 : n % 10 ≤ 9 := by omega
  simp only [pad2, List.cons_append, List.nil_append, parse2or1,
    dc_isDigit _ h1, dc_isDigit _ h2, dc_toNat _ h1, dc_toNat _ h2,
    if_true]
  have hv : (48 + n / 10 - 48) * 10 + (48 + n % 10 - 48) = n := by omega
  rw [hv, if_pos ⟨hlo, hhi⟩]

theorem expectChar_cons (c : Char) (rest : List Char) :
    expectChar c (c :: rest) = some rest := by
  simp [expectChar]

theorem skipSpaces_pad2 (n : Nat) (hn : n ≤ 99) (rest : List Char) :
    skipSpaces (' ' :: (pad2 n ++ rest)) = some (pad2 n ++ rest) := by
  have h1 : n / 10 ≤ 9 := by omega
  simp [pad2, List.cons_append, skipSpaces,
    show isPySpace ' ' = true from rfl, List.dropWhile,
    dc_not_space _ h1]

theorem daysInMonth_le (y m : Nat) : daysInMonth y m ≤ 31 := by
  simp only [daysInMonth]
  split_ifs <;> omega

theorem strptimeFixed_render (y m d h mi s : Nat) (hy1 : 1 ≤ y)
    (hy2 : y ≤ 9999) (hm1 : 1 ≤ m) (hm2 : m ≤ 12) (hd1 : 1 ≤ d)
    (hdm : d ≤ daysInMonth y m) (hh : h ≤ 23) (hmi : mi ≤ 59)
    (hs : s ≤ 59) :
    strptimeFixed (isoRender y m d h mi s).data = some ⟨y, m, d, h, mi, s⟩ := by
  have hd31 : d ≤ 31 := hdm.trans (daysInMonth_le y m)
  have hdata : (isoRender y m d h mi s).data =
      pad4 y ++ '-' :: (pad2 m ++ '-' :: (pad2 d ++ ' ' :: (pad2 h ++
        ':' :: (pad2 mi ++ ':' :: (pad2 s ++ []))))) := by
    simp [isoRender]
  rw [hdata]
  simp only [strptimeFixed,
    parse4digits_pad4 y hy2,
    expectChar_cons,
    parse2or1_pad2 1 12 m (by omega) hm1 hm2,
    parse2or1_pad2 1 31 d (by omega) hd1 hd31,
    skipSpaces_pad2 h (by omega),
    parse2or1_pad2 0 23 h (by omega) (Nat.zero_le h) hh,
    parse2or1_pad2 0 59 mi (by omega) (Nat.zero_le mi) hmi,
    parse2or1_pad2 0 59 s (by omega) (Nat.zero_le s) hs]
  rw [if_pos (And.intro hy1 hdm)]

theorem isDigit_toNat (c : Char) (h : c.isDigit = true) :
    48 ≤ c.toNat ∧ c.toNat ≤ 57 := by
  simp [Char.isDigit] at h
  exact h

theorem parse4digits_bound (cs : List Char) (y : Nat) (rest : List Char)
    (h : parse4digits cs = some (y, rest)) : y ≤ 9999 := by
  match cs with
  | [] => simp [parse4digits] at h
  | [c1] => simp [parse4digits] at h
  | [c1, c2] => simp [parse4digits] at h
  | [c1, c2, c3] => simp [parse4digits] at h
  | c1 :: c2 :: c3 :: c4 :: rest2 =>
      simp only [parse4digits] at h
      split at h
      · next hd =>
          simp only [Bool.and_eq_true] at hd
          obtain ⟨⟨⟨h1, h2⟩, h3⟩, h4⟩ := hd
          obtain ⟨h1a, h1b⟩ := isDigit_toNat c1 h1
          obtain ⟨h2a, h2b⟩ := isDigit_toNat c2 h2
          obtain ⟨h3a, h3b⟩ := isDigit_toNat c3 h3
          obtain ⟨h4a, h4b⟩ := isDigit_toNat c4 h4
          cases h
          omega
      · cases h

theorem parse2or1_bound (low high2 : Nat) (h9 : 9 ≤ high2)
    (cs : List Char) (v : Nat) (rest : List Char)
    (h : parse2or1 low high2 cs = some (v, rest)) :
    low ≤ v ∧ v ≤ high2 := by
  match cs with
  | [] => simp [parse2or1] at h
  | c1 :: rest1 =>
      simp only [parse2or1] at h
      split at h
      · next h1 =>
          obtain ⟨h1a, h1b⟩ := isDigit_toNat c1 h1
          split at h
          · next c2 rest2 =>
              split at h
              · next h2 =>
                  split at h
                  · next hr =>
                      cases h
                      exact hr
                  · cases h
              · split at h
                · next hlo =>
                    cases h
                    exact ⟨hlo, by omega⟩
                · cases h
          · split at h
            · next hlo =>
                cases h
                exact ⟨hlo, by omega⟩
            · cases h
      · cases h

theorem strptimeFixed_valid (cs : List Char) (dt : PyDateTime)
    (h : strptimeFixed cs = some dt) :
    1 ≤ dt.year ∧ dt.year ≤ 9999 ∧ 1 ≤ dt.month ∧ dt.month ≤ 12 ∧
    1 ≤ dt.day ∧ dt.day ≤ daysInMonth dt.year dt.month ∧
    dt.hour ≤ 23 ∧ dt.minute ≤ 59 ∧ dt.second ≤ 59 := by
  simp only [strptimeFixed] at h
  split at h
  · cases h
  · next y cs1 h4 =>
      split at h
      · cases h
      · next cs2 hc1 =>
          split at h
          · cases h
          · next m cs3 hm =>
              split at h
              · cases h
              · next cs4 hc2 =>
                  split at h
                  · cases h
                  · next d cs5 hd =>
                      split at h
                      · cases h
                      · next cs6 hws =>
                          split at h
                          · cases h
                          · next hh cs7 hhp =>
                              split at h
                              · cases h
                              · next cs8 hc3 =>
                                  split at h
                                  · cases h
                                  · next mi cs9 hmp =>
                                      split at h
                                      · cases h
                                      · next cs10 hc4 =>
                                          split at h
                                          · cases h
                                          · next sec cs11 hsp =>
                                              split at h
                                              · split at h
                                                · next hvalid =>
                                                    cases h
                                                    obtain ⟨hm1, hm2⟩ :=
                                                      parse2or1_bound 1 12
                                                        (by omega) _ m _ hm
                                                    obtain ⟨hd1, _⟩ :=
                                                      parse2or1_bound 1 31
                                                        (by omega) _ d _ hd
                                                    obtain ⟨_, hh2⟩ :=
                                                      parse2or1_bound 0 23
                                                        (by omega) _ hh _ hhp
                                                    obtain ⟨_, hmi2⟩ :=
                                                      parse2or1_bound 0 59
                                                        (by omega) _ mi _ hmp
                                                    obtain ⟨_, hs2⟩ :=
                                                      parse2or1_bound 0 59
                                                        (by omega) _ sec _ hsp
                                                    have hy4 :=
                                                      parse4digits_bound _ y _ h4
                                                    exact ⟨hvalid.1, hy4, hm1,
                                                      hm2, hd1, hvalid.2, hh2,
                                                      hmi2, hs2⟩
                                                · cases h
                                              · cases h

/-- C6 (amended): parse_timestamp accepts every zero-padded
year-month-day hour:minute:second string denoting a valid calendar
datetime, returning that datetime; but zero-padding is not required: the
compiled strptime regexes also accept one-digit month, day, hour, minute
and second fields, so the accepted language is strictly larger than the
fixed zero-padded pattern.  It fails with ValueError on a missing time
component, on non-date text and on a calendar-invalid date, and with
TypeError on every non-string input; moreover every datetime it ever
returns is a valid calendar datetime with in-range fields. -/
theorem claim_parse_timestamp (y m d h mi s : Nat) (hy1 : 1 ≤ y)
    (hy2 : y ≤ 9999) (hm1 : 1 ≤ m) (hm2 : m ≤ 12) (hd1 : 1 ≤ d)
    (hdm : d ≤ daysInMonth y m) (hh : h ≤ 23) (hmi : mi ≤ 59)
    (hs : s ≤ 59) :
    parse_iso_str (.str (isoRender y m d h mi s)) =
      .ok ⟨y, m, d, h, mi, s⟩ ∧
    parse_iso_str (.str "2013-01-01 00:00:00") = .ok ⟨2013, 1, 1, 0, 0, 0⟩ ∧
    (∃ msg, parse_iso_str (.str "2013-01-01") =
      .error (.valueError msg)) ∧
    (∃ msg, parse_iso_str (.str "not-a-date") =
      .error (.valueError msg)) ∧
    (∃ msg, parse_iso_str (.str "2013-02-30 00:00:00") =
      .error (.valueError msg)) ∧
    (∀ v : Value, v.isStr = false →
      ∃ msg, parse_iso_str v = .error (.typeError msg)) ∧
    (∀ (s2 : String) (dt : PyDateTime),
      parse_iso_str (.str s2) = .ok dt →
      1 ≤ dt.year ∧ dt.year ≤ 9999 ∧ 1 ≤ dt.month ∧ dt.month ≤ 12 ∧
      1 ≤ dt.day ∧ dt.day ≤ daysInMonth dt.year dt.month ∧
      dt.hour ≤ 23 ∧ dt.minute ≤ 59 ∧ dt.second ≤ 59) := by
  refine ⟨?_, rfl, ⟨_, rfl⟩, ⟨_, rfl⟩, ⟨_, rfl⟩, ?_, ?_⟩
  · simp only [parse_iso_str,
      strptimeFixed_render y m d h mi s hy1 hy2 hm1 hm2 hd1 hdm hh hmi hs]
  · intro v hv
    cases v with
    | str s2 => simp [Value.isStr] at hv
    | num f => exact ⟨_, rfl⟩
    | date d2 => exact ⟨_, rfl⟩
    | bool b => exact ⟨_, rfl⟩
    | none => exact ⟨_, rfl⟩
  · intro s2 dt hdt
    simp only [parse_iso_str] at hdt
    split at hdt
    · next hsf =>
        cases hdt
        exact strptimeFixed_valid s2.data _ hsf
    · cases hdt

/-- C6 counterexample: the non-zero-padded string 2013-1-1 0:0:0 is not of
the fixed zero-padded pattern (every rendering of that pattern has 19
characters) and nevertheless parses successfully, refuting the claim that
every input other than the zero-padded pattern fails. -/
theorem claim_parse_timestamp_cex :
    parse_iso_str (.str "2013-1-1 0:0:0") = .ok ⟨2013, 1, 1, 0, 0, 0⟩ ∧
    ∀ y m d h mi s : Nat,
      ("2013-1-1 0:0:0" : String) ≠ isoRender y m d h mi s := by
  constructor
  · rfl
  · intro y m d h mi s heq
    have hlen := congrArg String.length heq
    have h14 : ("2013-1-1 0:0:0" : String).length = 14 := rfl
    have h19 : (isoRender y m d h mi s).length = 19 := by
      simp [isoRender, String.length, pad4, pad2]
    rw [h14, h19] at hlen
    cases hlen

/-- C6 witness: the amended theorem instantiated at the specification's
own example timestamp. -/
theorem claim_parse_timestamp_witness :
    isoRender 2013 1 1 0 0 0 = "2013-01-01 00:00:00" ∧
    parse_iso_str (.str (isoRender 2013 1 1 0 0 0)) =
      .ok ⟨2013, 1, 1, 0, 0, 0⟩ :=
  ⟨by decide,
    (claim_parse_timestamp 2013 1 1 0 0 0 (by decide) (by decide)
      (by decide) (by decide) (by decide) (by decide) (by decide)
      (by decide) (by decide)).1⟩
